import Mathlib

/-
  Verification development for the Orchestrator repository
  (app/engine/orchestrator.py, app/engine/workflow_executor.py,
   tools/{pdf_tool,vision_tool,scraper_tool,mail_tool}.py).

  The Python code is shallowly embedded: Python values flowing through the
  tool layer are modelled by `PyVal`; the language-model endpoint, the
  filesystem, SMTP and the vision/scraper capabilities are oracle functions
  collected in `Caps`/`Env`; code that can raise is modelled in
  `Except String`; side effects that claims talk about (file reads, mail
  dispatch, pdf writes) are recorded in an explicit effect trace.
-/

set_option maxRecDepth 4096

-- ─────────────────────────────────────────────────────────────────────────────
-- Python values (the subset produced by json.loads and used by the core)
-- ─────────────────────────────────────────────────────────────────────────────

inductive PyVal where
  | none
  | bool (b : Bool)
  | int (n : Int)
  | str (s : String)
  | list (xs : List PyVal)
  | dict (kvs : List (String × PyVal))

/-- Python truthiness (`if x:`) for the values the core manipulates. -/
def pyTruthy : PyVal → Bool
  | .none => false
  | .bool b => b
  | .int n => n != 0
  | .str s => s ≠ ""
  | .list xs => !xs.isEmpty
  | .dict kvs => !kvs.isEmpty

/-- Python `a or b`. -/
def pyOr (a b : PyVal) : PyVal := if pyTruthy a then a else b

/-- `dict.get` on the underlying key/value list: the last binding wins,
    as in Python dicts built from JSON with duplicate keys. -/
def dictGetD (kvs : List (String × PyVal)) (k : String) (dflt : PyVal) : PyVal :=
  (((kvs.reverse).find? (fun kv => kv.1 = k)).map (fun kv => kv.2)).getD dflt

/-- Python `dict.get(k, dflt)`. Raises AttributeError on non-dicts. -/
def pyDictGet (v : PyVal) (k : String) (dflt : PyVal) : Except String PyVal :=
  match v with
  | .dict kvs => .ok (dictGetD kvs k dflt)
  | _ => .error "AttributeError: object has no attribute 'get'"

/-- Python `str()`; container reprs are abbreviated (no claim depends on them). -/
def pyStr : PyVal → String
  | .str s => s
  | .int n => toString n
  | .bool true => "True"
  | .bool false => "False"
  | .none => "None"
  | .list _ => "[...]"
  | .dict _ => "\x7b...\x7d"

def pyIsStr : PyVal → Bool
  | .str _ => true
  | _ => false

def pyStrOf : PyVal → Option String
  | .str s => some s
  | _ => Option.none

/-- Extract a Python list of strings, as `", ".join(xs)` requires. -/
def allStrings : PyVal → Option (List String)
  | .list xs => xs.foldr (fun x acc =>
      match x, acc with
      | .str s, some ss => some (s :: ss)
      | _, _ => Option.none) (some [])
  | _ => Option.none

-- ─────────────────────────────────────────────────────────────────────────────
-- json.dumps (Python defaults: separators (", ", ": "), \n escaped as \x5cn)
-- ─────────────────────────────────────────────────────────────────────────────

def jsonEscapeChar (c : Char) : String :=
  if c = '"' then "\\\""
  else if c = '\\' then "\\\\"
  else if c = '\n' then "\\n"
  else if c = '\r' then "\\r"
  else if c = '\t' then "\\t"
  else String.singleton c

def jsonEscape (s : String) : String :=
  String.join (s.toList.map jsonEscapeChar)

mutual
def jsonDumps : PyVal → String
  | .none => "null"
  | .bool true => "true"
  | .bool false => "false"
  | .int n => toString n
  | .str s => "\"" ++ jsonEscape s ++ "\""
  | .list xs => "[" ++ jsonDumpsList xs ++ "]"
  | .dict kvs => "\x7b" ++ jsonDumpsKVs kvs ++ "\x7d"

def jsonDumpsList : List PyVal → String
  | [] => ""
  | [x] => jsonDumps x
  | x :: xs => jsonDumps x ++ ", " ++ jsonDumpsList xs

def jsonDumpsKVs : List (String × PyVal) → String
  | [] => ""
  | [kv] => "\"" ++ jsonEscape kv.1 ++ "\": " ++ jsonDumps kv.2
  | kv :: kvs => "\"" ++ jsonEscape kv.1 ++ "\": " ++ jsonDumps kv.2 ++ ", " ++ jsonDumpsKVs kvs
end

-- ─────────────────────────────────────────────────────────────────────────────
-- json.loads (recursive-descent model; numbers are modelled as integers,
-- strings reject unescaped control characters exactly as Python's strict mode)
-- ─────────────────────────────────────────────────────────────────────────────

def isJsonWs (c : Char) : Bool := c = ' ' || c = '\t' || c = '\n' || c = '\r'

def skipWs : List Char → List Char
  | [] => []
  | c :: cs => if isJsonWs c then skipWs cs else c :: cs

def hexVal (c : Char) : Option Nat :=
  if '0' ≤ c ∧ c ≤ '9' then some (c.toNat - '0'.toNat)
  else if 'a' ≤ c ∧ c ≤ 'f' then some (c.toNat - 'a'.toNat + 10)
  else if 'A' ≤ c ∧ c ≤ 'F' then some (c.toNat - 'A'.toNat + 10)
  else Option.none

/-- Parse the body of a JSON string (the opening quote already consumed).
    Unescaped control characters are a parse error (Python strict mode). -/
def pStr : Nat → List Char → Option (String × List Char)
  | 0, _ => Option.none
  | _, [] => Option.none
  | fuel + 1, c :: cs =>
    if c = '"' then some ("", cs)
    else if c.toNat < 32 then Option.none
    else if c = '\\' then
      match cs with
      | [] => Option.none
      | e :: cs2 =>
        let cont := fun (ch : Char) (rest : List Char) =>
          (pStr fuel rest).map (fun sr => (String.singleton ch ++ sr.1, sr.2))
        if e = '"' then cont '"' cs2
        else if e = '\\' then cont '\\' cs2
        else if e = '/' then cont '/' cs2
        else if e = 'n' then cont '\n' cs2
        else if e = 't' then cont '\t' cs2
        else if e = 'r' then cont '\r' cs2
        else if e = 'b' then cont (Char.ofNat 8) cs2
        else if e = 'f' then cont (Char.ofNat 12) cs2
        else if e = 'u' then
          match cs2 with
          | a :: b :: c2 :: d :: cs3 =>
            match hexVal a, hexVal b, hexVal c2, hexVal d with
            | some ha, some hb, some hc, some hd =>
                cont (Char.ofNat (((ha * 16 + hb) * 16 + hc) * 16 + hd)) cs3
            | _, _, _, _ => Option.none
          | _ => Option.none
        else Option.none
    else (pStr fuel cs).map (fun sr => (String.singleton c ++ sr.1, sr.2))

def takeDigits : List Char → List Char × List Char
  | [] => ([], [])
  | c :: cs =>
    if '0' ≤ c ∧ c ≤ '9' then
      let (ds, rest) := takeDigits cs
      (c :: ds, rest)
    else ([], c :: cs)

def digitsToNat (ds : List Char) : Nat :=
  ds.foldl (fun acc c => acc * 10 + (c.toNat - '0'.toNat)) 0

def pNum (cs : List Char) : Option (Int × List Char) :=
  match cs with
  | '-' :: rest =>
    match takeDigits rest with
    | ([], _) => Option.none
    | (ds, rest2) => some (-(digitsToNat ds : Int), rest2)
  | _ =>
    match takeDigits cs with
    | ([], _) => Option.none
    | (ds, rest2) => some ((digitsToNat ds : Int), rest2)

def startsList (pre cs : List Char) : Bool := pre.isPrefixOf cs

mutual
def pVal : Nat → List Char → Option (PyVal × List Char)
  | 0, _ => Option.none
  | fuel + 1, cs =>
    match skipWs cs with
    | [] => Option.none
    | c :: rest =>
      if c = '"' then (pStr fuel rest).map (fun sr => (PyVal.str sr.1, sr.2))
      else if c = '{' then pMembers fuel (skipWs rest) true
      else if c = '[' then pItems fuel (skipWs rest) true
      else if startsList ['t', 'r', 'u', 'e'] (c :: rest) then
        some (PyVal.bool true, (c :: rest).drop 4)
      else if startsList ['f', 'a', 'l', 's', 'e'] (c :: rest) then
        some (PyVal.bool false, (c :: rest).drop 5)
      else if startsList ['n', 'u', 'l', 'l'] (c :: rest) then
        some (PyVal.none, (c :: rest).drop 4)
      else (pNum (c :: rest)).map (fun nr => (PyVal.int nr.1, nr.2))

/-- Members of an object; `first` is true before any pair has been read. -/
def pMembers : Nat → List Char → Bool → Option (PyVal × List Char)
  | 0, _, _ => Option.none
  | fuel + 1, cs, first =>
    match skipWs cs with
    | [] => Option.none
    | c :: rest =>
      if c = '}' ∧ first then some (PyVal.dict [], rest)
      else
        let csEff := if first then c :: rest else
          -- after a comma a pair must follow
          c :: rest
        match skipWs csEff with
        | '"' :: rest2 =>
          match pStr fuel rest2 with
          | Option.none => Option.none
          | some (k, rest3) =>
            match skipWs rest3 with
            | ':' :: rest4 =>
              match pVal fuel rest4 with
              | Option.none => Option.none
              | some (v, rest5) =>
                match skipWs rest5 with
                | '}' :: rest6 => some (PyVal.dict [(k, v)], rest6)
                | ',' :: rest6 =>
                  match pMembers fuel rest6 false with
                  | some (PyVal.dict kvs, rest7) => some (PyVal.dict ((k, v) :: kvs), rest7)
                  | _ => Option.none
                | _ => Option.none
            | _ => Option.none
        | _ => Option.none

def pItems : Nat → List Char → Bool → Option (PyVal × List Char)
  | 0, _, _ => Option.none
  | fuel + 1, cs, first =>
    match skipWs cs with
    | [] => Option.none
    | c :: rest =>
      if c = ']' ∧ first then some (PyVal.list [], rest)
      else
        match pVal fuel (c :: rest) with
        | Option.none => Option.none
        | some (v, rest2) =>
          match skipWs rest2 with
          | ']' :: rest3 => some (PyVal.list [v], rest3)
          | ',' :: rest3 =>
            match pItems fuel rest3 false with
            | some (PyVal.list vs, rest4) => some (PyVal.list (v :: vs), rest4)
            | _ => Option.none
          | _ => Option.none
end

/-- Model of Python `json.loads` on the JSON subset the core exchanges. -/
def parseJson (s : String) : Option PyVal :=
  match pVal (4 * s.toList.length + 16) s.toList with
  | some (v, rest) => if skipWs rest = [] then some v else Option.none
  | Option.none => Option.none

-- ─────────────────────────────────────────────────────────────────────────────
-- Character-level string operations (structural equivalents of Python's
-- str.startswith / str.replace / str.split / str.strip used by the core)
-- ─────────────────────────────────────────────────────────────────────────────

/-- Python s.startswith(pre). -/
def strStartsWith (s pre : String) : Bool := pre.toList.isPrefixOf s.toList

/-- Python s.replace("\n", "\\n"): escape newlines. -/
def escapeNewlines (s : String) : String :=
  String.mk (s.toList.flatMap (fun c => if c = '\n' then ['\\', 'n'] else [c]))

def unescapeNewlinesAux : List Char → List Char
  | [] => []
  | '\\' :: 'n' :: rest => '\n' :: unescapeNewlinesAux rest
  | c :: rest => c :: unescapeNewlinesAux rest

/-- Python s.replace("\\n", "\n"): restore escaped newlines (left-to-right,
    non-overlapping, exactly as str.replace). -/
def unescapeNewlines (s : String) : String := String.mk (unescapeNewlinesAux s.toList)

def splitCharAux (sep : Char) (cur : List Char) : List Char → List String
  | [] => [String.mk cur.reverse]
  | c :: cs => if c = sep then String.mk cur.reverse :: splitCharAux sep [] cs
               else splitCharAux sep (c :: cur) cs

/-- Python s.split(sep) for a one-character separator (keeps empty pieces). -/
def splitChar (sep : Char) (s : String) : List String := splitCharAux sep [] s.toList

def isPyWs (c : Char) : Bool :=
  c = ' ' || c = '\t' || c = '\n' || c = '\r' || c = Char.ofNat 11 || c = Char.ofNat 12

/-- Python s.strip(). -/
def strTrim (s : String) : String :=
  String.mk (((s.toList.dropWhile isPyWs).reverse.dropWhile isPyWs).reverse)

/-- Python s[n:] (character-based drop). -/
def strDropChars (s : String) (n : Nat) : String := String.mk (s.toList.drop n)

-- ─────────────────────────────────────────────────────────────────────────────
-- Path model (os.path / pathlib on POSIX, as used by the tools)
-- ─────────────────────────────────────────────────────────────────────────────

/-- Split on '/', keeping empty pieces (mirrors str.split("/")). -/
def splitSlashAux (cur : List Char) : List Char → List String
  | [] => [String.mk cur.reverse]
  | c :: cs => if c = '/' then String.mk cur.reverse :: splitSlashAux [] cs
               else splitSlashAux (c :: cur) cs

/-- Path components: split on '/' and drop empty pieces. -/
def splitParts (s : String) : List String :=
  (splitSlashAux [] s.toList).filter (fun p => p ≠ "")

/-- os.path.isabs on POSIX: the path begins with '/'. -/
def isAbsPath (s : String) : Bool :=
  match s.toList with
  | '/' :: _ => true
  | _ => false

/-- Lexical normalisation of an absolute component list ("." dropped,
    ".." pops, ".." at the root stays at the root), as os.path.normpath /
    Path.resolve do for absolute paths. -/
def normAux : List String → List String → List String
  | stack, [] => stack.reverse
  | stack, c :: cs =>
    if c = "." then normAux stack cs
    else if c = ".." then
      (match stack with
       | [] => normAux [] cs
       | _ :: t => normAux t cs)
    else normAux (c :: stack) cs

/-- Components of os.path.abspath(p) / Path(p).resolve() under cwd. -/
def resolveParts (cwd p : String) : List String :=
  normAux [] (if isAbsPath p then splitParts p else splitParts cwd ++ splitParts p)

/-- os.path.abspath(p) / str(Path(p).resolve()) under cwd. -/
def resolveStr (cwd p : String) : String :=
  "/" ++ String.intercalate "/" (resolveParts cwd p)

/-- os.path.basename: everything after the last '/'. -/
def osBasename (s : String) : String :=
  ((splitSlashAux [] s.toList).getLast?).getD ""

/-- pathlib PurePath(s).name: last component after collapsing "." and
    empty pieces; ".." components are kept (PurePath does not resolve them). -/
def pathlibName (s : String) : String :=
  (((splitParts s).filter (fun c => c ≠ ".")).getLast?).getD ""

/-- str(Path(dirName) / f) for a relative, non-empty f (empty f keeps dirName). -/
def joinRel (dirName f : String) : String :=
  if f = "" then dirName else dirName ++ "/" ++ f

/-- The path string the orchestrator's pdf branch passes to generate_report:
    basename is taken only for absolute filenames (orchestrator.py:152-158). -/
def orchReportPath (raw_file : String) : String :=
  joinRel "reports" (if isAbsPath raw_file then osBasename raw_file else raw_file)

/-- Component form of the workflow pdf_report node's output path
    (workflow_executor.py:177-187): REPORTS_DIR.resolve() / Path(filename).name. -/
def wfReportParts (cwd filename : String) : List String :=
  let safe := pathlibName filename
  resolveParts cwd "reports" ++ (if safe = "" then [] else [safe])

def wfReportPathStr (cwd filename : String) : String :=
  "/" ++ String.intercalate "/" (wfReportParts cwd filename)

/-- "path lies inside dir": dir's components are a prefix of path's. -/
def withinDir (dir path : List String) : Bool := dir.isPrefixOf path

-- ─────────────────────────────────────────────────────────────────────────────
-- Capabilities (external collaborators) and the effect trace
-- ─────────────────────────────────────────────────────────────────────────────

inductive Eff where
  | fileRead (path : String)
  | pdfWrite (path : String)
  | mailInvoke (recipients : PyVal)
  | mailSent (recipients : List String) (subject body : String)
  | scraped (url : PyVal)

def Eff.isMail : Eff → Bool
  | .mailInvoke _ => true
  | .mailSent _ _ _ => true
  | _ => false

structure Caps where
  cwd : String
  isFile : String → Bool
  visionChat : String → PyVal → String → Except String String
  scrapeUrl : PyVal → Except String String
  smtpSend : List String → String → String → Except String Unit
  pdfRender : PyVal → PyVal → String → Except String Unit

-- ─────────────────────────────────────────────────────────────────────────────
-- tools/vision_tool.py: VisionAnalysisTool.analyze_image
-- ─────────────────────────────────────────────────────────────────────────────

/-- The security check of analyze_image (vision_tool.py:44-47):
    str(Path(p).resolve()).startswith(str(UPLOADS_DIR)). -/
def visionGuard (cwd p : String) : Bool :=
  strStartsWith (resolveStr cwd p) (resolveStr cwd "uploads")

def DEFAULT_VISION_MODEL : String := "llama3.2-vision:11b"

/-- VisionAnalysisTool.analyze_image. Path arguments that are not strings make
    Path() raise TypeError; the file is only opened (fileRead effect) after the
    guard and the is_file check pass. -/
def analyze_image (caps : Caps) (image_path : PyVal) (prompt : PyVal)
    (model_name : String) : Except String String × List Eff :=
  match image_path with
  | .str p =>
    let img := resolveStr caps.cwd p
    if visionGuard caps.cwd p = false then
      (.error "Image path is not within the allowed uploads directory.", [])
    else if caps.isFile img = false then
      (.error ("Image not found at " ++ img), [])
    else
      let user_prompt := if pyTruthy prompt then prompt
        else .str "Describe this image in detail, focusing on any data, patterns, or key elements."
      let mn := if model_name = "" then DEFAULT_VISION_MODEL else model_name
      (caps.visionChat mn user_prompt img, [.fileRead img])
  | _ => (.error "TypeError: argument should be a str", [])

-- ─────────────────────────────────────────────────────────────────────────────
-- tools/pdf_tool.py: PDFReportTool.generate_report
-- ─────────────────────────────────────────────────────────────────────────────

/-- PDFReportTool.generate_report: output_path = os.path.abspath(filename);
    render (may raise inside fpdf) and return the path. -/
def generate_report (caps : Caps) (title content : PyVal) (filename : String) :
    Except String String × List Eff :=
  let output_path := resolveStr caps.cwd filename
  match caps.pdfRender title content output_path with
  | .ok _ => (.ok output_path, [.pdfWrite output_path])
  | .error e => (.error e, [])

-- ─────────────────────────────────────────────────────────────────────────────
-- tools/mail_tool.py: MailTool.send_email
-- ─────────────────────────────────────────────────────────────────────────────

/-- MailTool.send_email: records that the capability was invoked, raises a
    TypeError when recipients/subject/body are not strings (EmailMessage and
    ", ".join would), otherwise performs the SMTP dispatch. -/
def send_email (caps : Caps) (recipients : PyVal) (subject body : PyVal) :
    Except String Unit × List Eff :=
  let base := [Eff.mailInvoke recipients]
  match allStrings recipients, subject, body with
  | some tos, .str subj, .str bod =>
    (match caps.smtpSend tos subj bod with
     | .ok _ => (.ok (), base ++ [.mailSent tos subj bod])
     | .error e => (.error e, base))
  | _, _, _ => (.error "TypeError: recipients, subject and body must be strings", base)

-- ─────────────────────────────────────────────────────────────────────────────
-- app/engine/orchestrator.py: tool registry & invoker (_execute_tool)
-- ─────────────────────────────────────────────────────────────────────────────

def MAX_REACT_STEPS : Nat := 10
def DEFAULT_MODEL_NAME : String := "mistral:7b"

def _TOOL_ALIASES : List (String × String) :=
  [("pdf_report_tool", "generate_pdf_report"),
   ("pdf_tool",        "generate_pdf_report"),
   ("scraper_tool",    "web_scraper_tool"),
   ("web_scraper",     "web_scraper_tool")]

def resolveAlias (t : String) : String :=
  (((_TOOL_ALIASES.find? (fun kv => kv.1 = t)).map (fun kv => kv.2))).getD t

/-- The generate_pdf_report branch of _execute_tool (orchestrator.py:148-160). -/
def pdfBranch (caps : Caps) (args : PyVal) :
    Except String (String × Option String) × List Eff :=
  match (do
      let title ← pyDictGet args "title" (.str "AI Research Report")
      let content ← pyDictGet args "content" (.str "")
      let raw ← pyDictGet args "filename" (.str "report.pdf")
      pure (title, content, raw) : Except String (PyVal × PyVal × PyVal)) with
  | .error e => (.error e, [])
  | .ok (title, content, raw) =>
    match raw with
    | .str raw_file =>
      match generate_report caps title content (orchReportPath raw_file) with
      | (.ok path, t) => (.ok ("SUCCESS: PDF saved to '" ++ path ++ "'.", some path), t)
      | (.error e, t) => (.error e, t)
    | _ => (.error "TypeError: isabs argument should be a str", [])

/-- The analyze_image branch of _execute_tool (orchestrator.py:162-171). -/
def visionBranch (caps : Caps) (args : PyVal) (model_name : String) :
    Except String (String × Option String) × List Eff :=
  match pyDictGet args "image_path" .none with
  | .error e => (.error e, [])
  | .ok img =>
    if pyTruthy img = false then
      (.ok ("ERROR: image_path is required.", Option.none), [])
    else
      match pyDictGet args "prompt" .none with
      | .error e => (.error e, [])
      | .ok prompt =>
        match analyze_image caps img prompt model_name with
        | (.ok desc, t) => (.ok ("Image analysis result:\n" ++ desc, Option.none), t)
        | (.error e, t) => (.error e, t)

/-- The web_scraper_tool branch of _execute_tool (orchestrator.py:173-179).
    asyncio.run is modelled as a direct invocation of the scrape capability. -/
def scrapeBranch (caps : Caps) (args : PyVal) :
    Except String (String × Option String) × List Eff :=
  match (do
      let u1 ← pyDictGet args "url" .none
      let u2 ← pyDictGet args "target_url" .none
      let u3 ← pyDictGet args "source" .none
      pure (pyOr u1 (pyOr u2 u3)) : Except String PyVal) with
  | .error e => (.error e, [])
  | .ok url =>
    if pyTruthy url = false then
      (.ok ("ERROR: 'url' is required for web scraping.", Option.none), [])
    else
      match caps.scrapeUrl url with
      | .ok text =>
        (.ok ("Scraped content from " ++ pyStr url ++ ":\n" ++
            String.mk (text.toList.take 3000), Option.none),
         [.scraped url])
      | .error e => (.error e, [.scraped url])

/-- The send_email branch of _execute_tool (orchestrator.py:181-190). -/
def mailBranch (caps : Caps) (args : PyVal) :
    Except String (String × Option String) × List Eff :=
  match (do
      let to0 ← pyDictGet args "to" .none
      let s0 ← pyDictGet args "subject" .none
      let b0 ← pyDictGet args "body" .none
      pure (to0, s0, b0) : Except String (PyVal × PyVal × PyVal)) with
  | .error e => (.error e, [])
  | .ok (to0, s0, b0) =>
    let to1 := pyOr to0 (.list [])
    let subject := pyOr s0 (.str "AgentFlow Local Report")
    let body := pyOr b0 (.str "")
    let to2 := match to1 with
      | .str s => PyVal.list [.str s]
      | v => v
    if pyTruthy to2 = false then
      (.ok ("ERROR: 'to' (recipient list) is required.", Option.none), [])
    else
      match send_email caps to2 subject body with
      | (.ok _, t) =>
        match allStrings to2 with
        | some tos =>
          (.ok ("SUCCESS: email dispatched to " ++ String.intercalate ", " tos ++ ".", Option.none), t)
        | Option.none => (.error "TypeError: sequence item: expected str", t)
      | (.error e, t) => (.error e, t)

/-- _execute_tool (orchestrator.py:130-195). Total: every failure becomes an
    observation string; exceptions inside a branch are caught by the
    try/except and prefixed with "ERROR while executing". -/
def _execute_tool (caps : Caps) (tool_name : String) (arguments_json : String)
    (model_name : String) : (String × Option String) × List Eff :=
  match (if arguments_json = "" then some (PyVal.dict []) else parseJson arguments_json) with
  | Option.none => (("ERROR: tool arguments could not be parsed as JSON.", Option.none), [])
  | some args =>
    let name := resolveAlias tool_name
    let wrapErr := fun (r : Except String (String × Option String) × List Eff) =>
      match r with
      | (.ok v, t) => (v, t)
      | (.error e, t) => (("ERROR while executing '" ++ name ++ "': " ++ e, Option.none), t)
    if name = "generate_pdf_report" then wrapErr (pdfBranch caps args)
    else if name = "analyze_image" then wrapErr (visionBranch caps args model_name)
    else if name = "web_scraper_tool" then wrapErr (scrapeBranch caps args)
    else if name = "send_email" then wrapErr (mailBranch caps args)
    else (("ERROR: unknown tool '" ++ tool_name ++ "'.", Option.none), [])

-- ─────────────────────────────────────────────────────────────────────────────
-- orchestrator.py: _parse_inline_tool_call (permissive embedded-JSON scan)
-- ─────────────────────────────────────────────────────────────────────────────

def idxOfChar (c : Char) (cs : List Char) : Option Nat := cs.indexOf? c

def lastIdxOfChar (c : Char) (cs : List Char) : Option Nat :=
  match (cs.reverse).indexOf? c with
  | some j => some (cs.length - 1 - j)
  | Option.none => Option.none

/-- re.search(r"\x7b.*\x7d", text, DOTALL): the greedy match runs from the
    first '\x7b' to the last '\x7d' after it, if any. -/
def greedyBraceSpan (text : String) : Option String :=
  let cs := text.toList
  match idxOfChar '{' cs, lastIdxOfChar '}' cs with
  | some i, some j =>
    if i < j then some (String.mk ((cs.drop i).take (j - i + 1))) else Option.none
  | _, _ => Option.none

/-- _parse_inline_tool_call (orchestrator.py:202-223): detect a JSON tool call
    embedded in plain assistant text; returns (tool name, argument dict). -/
def _parse_inline_tool_call (text : String) : Option (String × List (String × PyVal)) :=
  if text = "" then Option.none
  else
    match greedyBraceSpan text with
    | Option.none => Option.none
    | some span =>
      match parseJson span with
      | Option.none => Option.none
      | some obj =>
        match (do
            let n1 ← pyDictGet obj "tool" .none
            let n2 ← pyDictGet obj "tool_name" .none
            let n3 ← pyDictGet obj "name" .none
            let a1 ← pyDictGet obj "arguments" .none
            let a2 ← pyDictGet obj "args" .none
            let a3 ← pyDictGet obj "params" .none
            pure (pyOr n1 (pyOr n2 n3), pyOr a1 (pyOr a2 (pyOr a3 (.dict [])))) :
            Except String (PyVal × PyVal)) with
        | .error _ => Option.none
        | .ok (nameV, rawArgs0) =>
          if pyTruthy nameV = false then Option.none
          else
            let rawArgs1 := match rawArgs0 with
              | .str s => (parseJson s).getD (.dict [])
              | v => v
            let rawArgs2 := match rawArgs1 with
              | .dict kvs => kvs
              | _ => ([] : List (String × PyVal))
            some (pyStr nameV, rawArgs2)

-- ─────────────────────────────────────────────────────────────────────────────
-- orchestrator.py: agent configuration, prompt builder, tool schemas
-- ─────────────────────────────────────────────────────────────────────────────

/-- app/models/agent_models.py Agent row. Nullable text columns are modelled
    as String with "" standing for NULL (both are falsy where the code tests
    them). -/
structure AgentRec where
  id : Int
  name : String
  role : String
  model_name : String
  backstory : String
  tools : String

/-- session.get(Agent, agent_id). -/
def sessionGetAgent (agents : List AgentRec) (agent_id : Int) : Option AgentRec :=
  agents.find? (fun a => a.id = agent_id)

/-- Tool-name parsing shared by _build_system_prompt and _get_tool_schemas:
    a JSON list is mapped through str(); malformed JSON degrades to the raw
    string as a single tool name. -/
def parseToolNames (toolsField : String) : List String :=
  if toolsField = "" then []
  else
    match parseJson toolsField with
    | some (.list xs) => xs.map pyStr
    | some _ => []
    | Option.none => [toolsField]

def CRITICAL_RULES : String :=
  String.intercalate "\n"
    ["CRITICAL RULES FOR TOOL USE — follow these without exception:",
     "1. NEVER ask the user for a URL or any other input if your instructions already specify    a website, URL, or data source. Extract the URL from your instructions and call    web_scraper_tool immediately.",
     "2. If the task involves producing a document or report, call pdf_report_tool with the    collected content — do not just describe the output.",
     "3. ALWAYS call tools by emitting a valid function call (or a JSON block with    \x7b\"tool\": \"<name>\", \"arguments\": \x7b...\x7d\x7d). Never describe what you would do; execute it.",
     "4. After receiving a tool observation, synthesise a clear final answer for the user."]

/-- _build_system_prompt (orchestrator.py:56-92). -/
def _build_system_prompt (agent : AgentRec) : String :=
  let parts1 := ["You are an AI agent named '" ++ agent.name ++ "' with the role '" ++ agent.role ++ "'."]
  let parts2 := parts1 ++ (if agent.backstory ≠ "" then
      ["Background and instructions: " ++ agent.backstory] else [])
  let tool_names := parseToolNames agent.tools
  let parts3 := parts2 ++ (if tool_names ≠ [] then
      ["You have access to these tools: " ++ String.intercalate ", " tool_names ++ ".",
       CRITICAL_RULES] else [])
  let parts4 := parts3 ++
      ["Follow the ReAct loop strictly: THINK → ACT (call a tool) → OBSERVE → repeat until done → give a concise final answer."]
  String.intercalate "\n" parts4

/-- _get_tool_schemas (orchestrator.py:95-115), reduced to the names of the
    schemas that would be attached; the static schema bodies carry no control
    flow in the core. -/
def _get_tool_schemas (agent : AgentRec) : List String :=
  (parseToolNames agent.tools).filter (fun n =>
    n = "pdf_report_tool" ∨ n = "vision_analysis_tool" ∨ n = "web_scraper_tool" ∨ n = "send_email")

-- ─────────────────────────────────────────────────────────────────────────────
-- orchestrator.py: event stream, conversation messages, the ReAct loop
-- ─────────────────────────────────────────────────────────────────────────────

inductive EventKind where
  | thought | action | observation | final | error | done
deriving DecidableEq

def EventKind.wire : EventKind → String
  | .thought => "thought"
  | .action => "action"
  | .observation => "observation"
  | .final => "final"
  | .error => "error"
  | .done => "done"

structure Event where
  kind : EventKind
  data : String

/-- _sse (orchestrator.py:35-38): one SSE frame, newlines escaped. -/
def _sse (e : Event) : String :=
  "event: " ++ e.kind.wire ++ "\ndata: " ++ escapeNewlines e.data ++ "\n\n"

/-- One entry of the `messages` list handed to the model. -/
structure Msg where
  role : String
  content : String := ""
  tool_calls : List (String × String × String) := []  -- (id, name, arguments)
  tool_call_id : String := ""
  name : String := ""

structure ToolCallRec where
  id : String
  name : String
  arguments : String

/-- One chat-completion result: `content` ("" models null) and the structured
    tool calls (the `or []` default applied). -/
structure ModelResponse where
  content : String
  tool_calls : List ToolCallRec

/-- The whole environment of one orchestrator process: the agents table, the
    model endpoint (indexed by how many model calls were made so far in the
    run; .error models an exception escaping the client call) and the tool
    capabilities. -/
structure Env where
  agents : List AgentRec
  respond : Nat → Except String ModelResponse
  caps : Caps

structure LoopState where
  messages : List Msg
  thought_log : List String
  last_artifact : Option String
  events : List Event
  trace : List Eff
  queries : Nat

/-- Drain all structured tool calls of one model turn
    (orchestrator.py:305-332): per call one action event, one tool execution,
    one observation event, and two context entries. -/
def drainCalls (caps : Caps) (model_name : String) (step : Nat) :
    List ToolCallRec → LoopState → LoopState
  | [], s => s
  | tc :: tcs, s =>
    let t_args := if tc.arguments = "" then "\x7b\x7d" else tc.arguments
    let acted := s.events ++
      [⟨EventKind.action, "[ACTION] Executing tool: " ++ tc.name ++ "\nArgs: " ++ t_args⟩]
    let log1 := s.thought_log ++ ["ACTION (step " ++ toString step ++ "): " ++ tc.name ++ " | " ++ t_args]
    let r := _execute_tool caps tc.name t_args model_name
    let observation := r.1.1
    let artifact := r.1.2
    let last := match artifact with
      | some a => if a = "" then s.last_artifact else some a
      | Option.none => s.last_artifact
    let log2 := log1 ++ ["OBSERVATION (step " ++ toString step ++ "): " ++ observation]
    let evts := acted ++ [⟨EventKind.observation, "[OBSERVATION] " ++ observation⟩]
    let msgs := s.messages ++
      [{ role := "assistant", tool_calls := [(tc.id, tc.name, t_args)] },
       { role := "tool", tool_call_id := tc.id, name := tc.name, content := observation }]
    drainCalls caps model_name step tcs
      { messages := msgs, thought_log := log2, last_artifact := last,
        events := evts, trace := s.trace ++ r.2, queries := s.queries }

inductive StepRes where
  | next (s : LoopState)
  | finished (s : LoopState) (final : Option String)
  | fatal (s : LoopState) (msg : String)

/-- One iteration of the ReAct for-loop (orchestrator.py:280-363). -/
def reactStep (env : Env) (model_name : String) (step : Nat) (s : LoopState) : StepRes :=
  let s0 : LoopState := { s with events := s.events ++
    [⟨EventKind.thought, "[Step " ++ toString (step + 1) ++ "] Querying model " ++ model_name ++ "…"⟩] }
  match env.respond s0.queries with
  | .error e => .fatal { s0 with queries := s0.queries + 1 } e
  | .ok resp =>
    let s1 := { s0 with queries := s0.queries + 1 }
    let s2 := if resp.content ≠ "" then
        { s1 with
          thought_log := s1.thought_log ++
            ["THOUGHT (step " ++ toString step ++ "): " ++ resp.content],
          events := s1.events ++ [⟨EventKind.thought, resp.content⟩] }
      else s1
    if resp.tool_calls.isEmpty = false then
      .next (drainCalls env.caps model_name step resp.tool_calls s2)
    else
      match (if resp.content ≠ "" then _parse_inline_tool_call resp.content else Option.none) with
      | some (t_name, t_args_kvs) =>
        let t_args := jsonDumps (.dict t_args_kvs)
        let acted := s2.events ++
          [⟨EventKind.action, "[ACTION] Intercepted inline tool call: " ++ t_name ++ "\nArgs: " ++ t_args⟩]
        let log1 := s2.thought_log ++
          ["ACTION (step " ++ toString step ++ "): " ++ t_name ++ " | " ++ t_args]
        let r := _execute_tool env.caps t_name t_args model_name
        let observation := r.1.1
        let last := match r.1.2 with
          | some a => if a = "" then s2.last_artifact else some a
          | Option.none => s2.last_artifact
        .next { messages := s2.messages ++
                  [{ role := "assistant",
                     content := "[Tool '" ++ t_name ++ "' executed.]\n" ++ observation }],
                thought_log := log1 ++
                  ["OBSERVATION (step " ++ toString step ++ "): " ++ observation],
                last_artifact := last,
                events := acted ++ [⟨EventKind.observation, "[OBSERVATION] " ++ observation⟩],
                trace := s2.trace ++ r.2,
                queries := s2.queries }
      | Option.none =>
        if resp.content ≠ "" then .finished s2 (some resp.content)
        else .finished s2 Option.none

inductive LoopOut where
  | budget
  | final (answer : Option String)
  | fatal (msg : String)

/-- `for step in range(MAX_REACT_STEPS)` (orchestrator.py:280). -/
def runSteps (env : Env) (model_name : String) :
    Nat → Nat → LoopState → LoopState × LoopOut
  | 0, _, s => (s, .budget)
  | fuel + 1, step, s =>
    match reactStep env model_name step s with
    | .next s1 => runSteps env model_name fuel (step + 1) s1
    | .finished s1 fo => (s1, .final fo)
    | .fatal s1 e => (s1, .fatal e)

/-- app/models/agent_models.py TaskLog row; id models the autoincrement key. -/
structure TaskLogRec where
  id : Int
  agent_id : Int
  input_query : String
  thought_process : String
  final_output : String

structure StreamOut where
  events : List Event
  db : List TaskLogRec
  trace : List Eff
  model_calls : Nat

def NO_RESPONSE_ANSWER : String :=
  "The agent completed its reasoning but produced no final text response."

/-- json.dumps of the final-event payload, in insertion order
    (orchestrator.py:382-387). -/
def dumpPayload (task_log_id agent_id : Int) (final_output : String)
    (artifact_path : Option String) : String :=
  jsonDumps (.dict
    [("task_log_id", .int task_log_id),
     ("agent_id", .int agent_id),
     ("final_output", .str final_output),
     ("artifact_path", match artifact_path with
       | some p => .str p
       | Option.none => .none)])

/-- agent.model_name or DEFAULT_MODEL_NAME. -/
def agentModelName (agent : AgentRec) : String :=
  if agent.model_name ≠ "" then agent.model_name else DEFAULT_MODEL_NAME

/-- The user message content, with the optional image-path annotation. -/
def initialUserContent (user_prompt : String) (image_path : Option String) : String :=
  user_prompt ++ (match image_path with
    | some ip =>
      "\n\n[Note: an image is available at the server path below. Call the vision tool if you need to inspect it.]\nimage_path: " ++ ip
    | Option.none => "")

/-- The loop state before the first ReAct step (orchestrator.py:260-277). -/
def initialLoopState (agent : AgentRec) (user_prompt : String)
    (image_path : Option String) : LoopState :=
  { messages := [{ role := "system", content := _build_system_prompt agent : Msg },
                 { role := "user", content := initialUserContent user_prompt image_path : Msg }],
    thought_log := ["USER: " ++ user_prompt] ++ (match image_path with
      | some ip => ["USER IMAGE: " ++ ip]
      | Option.none => []),
    last_artifact := Option.none, events := [], trace := [], queries := 0 }

/-- The TaskLog row persisted at the end of a completed loop
    (orchestrator.py:371-379); the id models the autoincrement key. -/
def mkTaskLog (db : List TaskLogRec) (agent : AgentRec) (user_prompt : String)
    (s1 : LoopState) (final_answer : String) : TaskLogRec :=
  { id := (db.length : Int) + 1, agent_id := agent.id, input_query := user_prompt,
    thought_process := String.intercalate "\n" s1.thought_log,
    final_output := final_answer }

/-- The try/except body of stream_agent_task (orchestrator.py:249-391):
    everything up to, but not including, the `finally` block. -/
def stream_core (env : Env) (db : List TaskLogRec) (agent_id : Int)
    (user_prompt : String) (image_path : Option String) : StreamOut :=
  match sessionGetAgent env.agents agent_id with
  | Option.none =>
    { events := [⟨EventKind.error, "Agent #" ++ toString agent_id ++ " not found."⟩, ⟨EventKind.done, "[DONE]"⟩],
      db := db, trace := [], model_calls := 0 }
  | some agent =>
    match runSteps env (agentModelName agent) MAX_REACT_STEPS 0
        (initialLoopState agent user_prompt image_path) with
    | (s1, .fatal e) =>
      { events := s1.events ++ [⟨EventKind.error, "Fatal error: " ++ e⟩],
        db := db, trace := s1.trace, model_calls := s1.queries }
    | (s1, outcome) =>
      let final_answer := match outcome with
        | .final (some a) => a
        | _ => NO_RESPONSE_ANSWER
      let payload := dumpPayload ((db.length : Int) + 1) agent.id final_answer s1.last_artifact
      { events := s1.events ++ [⟨EventKind.final, payload⟩],
        db := db ++ [mkTaskLog db agent user_prompt s1 final_answer],
        trace := s1.trace, model_calls := s1.queries }

/-- stream_agent_task (orchestrator.py:230-395). The `finally` block appends
    the trailing done sentinel on every exit path — including after the
    explicit done of the agent-not-found branch. -/
def stream_agent_task (env : Env) (db : List TaskLogRec) (agent_id : Int)
    (user_prompt : String) (image_path : Option String) : StreamOut :=
  let core := stream_core env db agent_id user_prompt image_path
  { core with events := core.events ++ [⟨EventKind.done, "[DONE]"⟩] }

-- ─────────────────────────────────────────────────────────────────────────────
-- orchestrator.py: run_agent_task (synchronous wrapper, frame re-parsing)
-- ─────────────────────────────────────────────────────────────────────────────

/-- The per-frame event/data extraction of run_agent_task
    (orchestrator.py:423-428): split on newlines, keep the last
    "event:"/"data:" line, strip, and undo the newline escaping. -/
def parseFrame (frame : String) : String × String :=
  (splitChar '\n' frame).foldl (fun acc line =>
    if strStartsWith line "event:" then (strTrim (strDropChars line 6), acc.2)
    else if strStartsWith line "data:" then
      (acc.1, unescapeNewlines (strTrim (strDropChars line 5)))
    else acc) ("", "")

structure RunResult where
  task_log_id : PyVal
  agent_id : PyVal
  final_output : PyVal
  artifact_path : PyVal
  thought_process : String

/-- run_agent_task (orchestrator.py:402-446): consume the stream, collect
    thought/action/observation data lines, decode the final payload
    (falling back to the raw data string when json.loads fails). -/
def run_agent_task (env : Env) (db : List TaskLogRec) (agent_id : Int)
    (user_prompt : String) (image_path : Option String) : RunResult :=
  let frames := (stream_agent_task env db agent_id user_prompt image_path).events.map _sse
  let init : RunResult :=
    { task_log_id := .int (-1), agent_id := .int agent_id,
      final_output := .str "", artifact_path := .none, thought_process := "" }
  let step := fun (acc : RunResult × List String) (frame : String) =>
    let ed := parseFrame frame
    let event := ed.1
    let data := ed.2
    if event = "thought" ∨ event = "action" ∨ event = "observation" then
      (acc.1, acc.2 ++ [data])
    else if event = "final" then
      match parseJson data with
      | some payload =>
        -- result.update(payload): overwrite exactly the keys the payload carries
        let upd := fun (k : String) (cur : PyVal) =>
          match pyDictGet payload k cur with
          | .ok v => v
          | .error _ => cur
        ({ acc.1 with
           task_log_id := upd "task_log_id" acc.1.task_log_id,
           agent_id := upd "agent_id" acc.1.agent_id,
           final_output := upd "final_output" acc.1.final_output,
           artifact_path := upd "artifact_path" acc.1.artifact_path }, acc.2)
      | Option.none => ({ acc.1 with final_output := .str data }, acc.2)
    else acc
  let out := frames.foldl step (init, [])
  { out.1 with thought_process := String.intercalate "\n" out.2 }

-- ─────────────────────────────────────────────────────────────────────────────
-- app/engine/workflow_executor.py: graph model and executor
-- ─────────────────────────────────────────────────────────────────────────────

structure WNode where
  id : String
  ntype : String
  key : String
  config : PyVal

structure WEdge where
  source : String
  target : String

structure WGraph where
  nodes : List WNode
  edges : List WEdge

/-- Keys of the Python dict `{n["id"]: n for n in nodes}`: first-insertion
    order, duplicates collapsed. -/
def dedupKeys (l : List String) : List String :=
  l.foldl (fun acc x => if x ∈ acc then acc else acc ++ [x]) []

def nodeIds (g : WGraph) : List String := dedupKeys (g.nodes.map (fun n => n.id))

/-- nodes[nid]; with a duplicated id the later entry wins, as in the dict
    comprehension. -/
def lookupNode (g : WGraph) (nid : String) : Option WNode :=
  (g.nodes.reverse).find? (fun n => n.id = nid)

/-- incoming[nid]: sources of the edges targeting nid, in edge order. -/
def parentsOf (g : WGraph) (nid : String) : List String :=
  (g.edges.filter (fun e => e.target = nid)).map (fun e => e.source)

/-- outgoing[nid]: targets of the edges leaving nid, in edge order. -/
def childrenOf (g : WGraph) (nid : String) : List String :=
  (g.edges.filter (fun e => e.source = nid)).map (fun e => e.target)

/-- WorkflowExecutor._merge_inputs (workflow_executor.py:123-140). -/
def _merge_inputs : List PyVal → PyVal
  | [] => .none
  | [x] => x
  | xs =>
    if xs.all pyIsStr then
      .str (String.intercalate "\n\n" (xs.filterMap pyStrOf))
    else .list xs

/-- Node-config normalisation (workflow_executor.py:94-99):
    `node.get("config") or {}`, then a string config is json-parsed once,
    degrading to {} on invalid JSON. -/
def nodeConfig (c : PyVal) : PyVal :=
  let c1 := if pyTruthy c then c else .dict []
  match c1 with
  | .str s => (parseJson s).getD (.dict [])
  | v => v

/-- Python int(...) as applied to the agent_id config entry. -/
def pyToInt : PyVal → Except String Int
  | .int n => .ok n
  | .bool b => .ok (if b then 1 else 0)
  | .str s =>
    (match s.trim.toInt? with
     | some n => .ok n
     | Option.none => .error ("ValueError: invalid literal for int(): " ++ s))
  | _ => .error "TypeError: int() argument must be a string or a number"

/-- Collect final_output from the frames of an embedded agent run
    (workflow_executor.py:200-215); json.loads failure keeps the raw payload,
    a non-dict payload would raise AttributeError. -/
def collectFinal : List String → PyVal → Except String PyVal
  | [], acc => .ok acc
  | frame :: rest, acc =>
    let ed := parseFrame frame
    if ed.1 = "final" ∧ ed.2 ≠ "" then
      match parseJson ed.2 with
      | some payload =>
        (match pyDictGet payload "final_output" (.str "") with
         | .ok v => collectFinal rest v
         | .error e => .error e)
      | Option.none => collectFinal rest (.str ed.2)
    else collectFinal rest acc

/-- WorkflowExecutor._execute_node (workflow_executor.py:142-223).
    The nested `if type/if key` checks fall through to the passthrough
    default exactly as in the source. -/
def _execute_node (env : Env) (db : List TaskLogRec) (node_type key : String)
    (config : PyVal) (data : PyVal) :
    Except String PyVal × List Eff × List TaskLogRec :=
  if node_type = "source" ∧ key = "url_input" then
    match pyDictGet config "url" .none with
    | .ok u => (.ok (pyOr u data), [], db)
    | .error e => (.error e, [], db)
  else if node_type = "source" ∧ key = "schedule" then
    (.ok (.dict [("schedule", config)]), [], db)
  else if node_type = "tool" ∧ key = "web_scraper" then
    match pyDictGet config "url" .none with
    | .error e => (.error e, [], db)
    | .ok u =>
      match pyOr u data with
      | .str ustr =>
        (match env.caps.scrapeUrl (.str ustr) with
         | .ok text => (.ok (.str text), [.scraped (.str ustr)], db)
         | .error e => (.error e, [.scraped (.str ustr)], db))
      | _ => (.error "Web scraper node requires a URL string input.", [], db)
  else if node_type = "tool" ∧ key = "email_sender" then
    match pyDictGet config "to" .none, pyDictGet config "subject" .none with
    | .ok to0, .ok s0 =>
      let to1 := pyOr to0 (.list [])
      let subject := pyOr s0 (.str "AgentFlow Local Report")
      let body : String := match data with
        | .none => ""
        | v => pyStr v
      let to2 := match to1 with
        | .str s => PyVal.list [.str s]
        | v => v
      if pyTruthy to2 then
        match send_email env.caps to2 subject (.str body) with
        | (.ok _, t) => (.ok (.dict [("status", .str "sent"), ("to", to2)]), t, db)
        | (.error e, t) => (.error e, t, db)
      else
        (.ok (.dict [("status", .str "sent"), ("to", to2)]), [], db)
    | .error e, _ => (.error e, [], db)
    | _, .error e => (.error e, [], db)
  else if node_type = "tool" ∧ key = "pdf_report" then
    match pyDictGet config "title" (.str "AI Research Report"),
          pyDictGet config "filename" (.str "workflow_report.pdf") with
    | .ok title, .ok fnameV =>
      let content : String := match data with
        | .none => ""
        | v => pyStr v
      (match fnameV with
       | .str filename =>
         let output_path := wfReportPathStr env.caps.cwd filename
         (match generate_report env.caps title (.str content) output_path with
          | (.ok _p, t) => (.ok (.dict [("pdf_path", .str output_path)]), t, db)
          | (.error e, t) => (.error e, t, db))
       | _ => (.error "TypeError: argument should be a str", [], db))
    | .error e, _ => (.error e, [], db)
    | _, .error e => (.error e, [], db)
  else if node_type = "agent" then
    match pyDictGet config "agent_id" .none with
    | .error e => (.error e, [], db)
    | .ok aidV =>
      match aidV with
      | .none => (.error "Agent node requires an 'agent_id' in config.", [], db)
      | _ =>
        match pyToInt aidV with
        | .error e => (.error e, [], db)
        | .ok aid =>
          match pyDictGet config "prompt_prefix" .none with
          | .error e => (.error e, [], db)
          | .ok ppV =>
            let pp := pyOr ppV (.str "")
            let base : String := match data with
              | .none => ""
              | v => pyStr v
            let full := if pyTruthy pp then pyStr pp ++ "\n\n" ++ base else base
            let sOut := stream_agent_task env db aid full Option.none
            (match collectFinal (sOut.events.map _sse) (.str "") with
             | .ok v => (.ok v, sOut.trace, sOut.db)
             | .error e => (.error e, sOut.trace, sOut.db))
  else
    -- output nodes and unrecognised types: passthrough
    (.ok data, [], db)

structure WfState where
  ready : List String
  completed : List String
  results : List (String × PyVal)
  trace : List Eff
  db : List TaskLogRec

/-- results[nid] = r (dict assignment: replace or append). -/
def setResult (rs : List (String × PyVal)) (k : String) (v : PyVal) :
    List (String × PyVal) :=
  if rs.any (fun kv => kv.1 = k) then
    rs.map (fun kv => if kv.1 = k then (k, v) else kv)
  else rs ++ [(k, v)]

/-- One iteration of the while-loop of execute_graph
    (workflow_executor.py:89-116). -/
def wfStep (env : Env) (g : WGraph) (nid : String) (rest : List String)
    (st : WfState) : Except String WfState :=
  match lookupNode g nid with
  | Option.none => .error ("KeyError: '" ++ nid ++ "'")
  | some node =>
    let config := nodeConfig node.config
    let inputs := (parentsOf g nid).filterMap (fun p =>
      (st.results.find? (fun kv => kv.1 = p)).map (fun kv => kv.2))
    let merged := _merge_inputs inputs
    match _execute_node env st.db node.ntype node.key config merged with
    | (.error e, _, _) => .error e
    | (.ok r, t, db2) =>
      let completed2 := if nid ∈ st.completed then st.completed else st.completed ++ [nid]
      let pushed := (childrenOf g nid).filter (fun c =>
        (parentsOf g c).all (fun p => decide (p ∈ completed2)))
      .ok { ready := rest ++ pushed,
            completed := completed2,
            results := setResult st.results nid r,
            trace := st.trace ++ t,
            db := db2 }

inductive WfOut where
  | fuelOut (st : WfState)
  | ok (st : WfState)
  | failed (st : WfState) (e : String)

def WfOut.state : WfOut → WfState
  | .fuelOut st => st
  | .ok st => st
  | .failed st _ => st

def WfOut.isSettled : WfOut → Bool
  | .fuelOut _ => false
  | _ => true

/-- The while-loop of execute_graph, with explicit fuel. -/
def wfRun (env : Env) (g : WGraph) : Nat → WfState → WfOut
  | 0, st => .fuelOut st
  | fuel + 1, st =>
    match st.ready with
    | [] => .ok st
    | nid :: rest =>
      match wfStep env g nid rest st with
      | .error e => .failed st e
      | .ok st2 => wfRun env g fuel st2

/-- Initial state: nodes with no incoming edges form the ready queue
    (workflow_executor.py:87). -/
def initWf (g : WGraph) (db : List TaskLogRec) : WfState :=
  { ready := (nodeIds g).filter (fun nid => (parentsOf g nid).isEmpty),
    completed := [], results := [], trace := [], db := db }

def execute_graph (env : Env) (g : WGraph) (db : List TaskLogRec) (fuel : Nat) : WfOut :=
  wfRun env g fuel (initWf g db)

-- ─────────────────────────────────────────────────────────────────────────────
-- Scheduling analysis for execute_graph: the well-founded part of the parent
-- relation, a rank function, and a decreasing measure for the ready queue
-- ─────────────────────────────────────────────────────────────────────────────

/-- Iterated closure: `wfIter g (k+1)` holds the nodes all of whose parents
    already lie in `wfIter g k`. Nodes on a directed cycle never enter. -/
def wfIter (g : WGraph) : Nat → List String
  | 0 => []
  | k + 1 => (nodeIds g).filter (fun n =>
      (parentsOf g n).all (fun p => decide (p ∈ wfIter g k)))

def NBound (g : WGraph) : Nat := (nodeIds g).length

/-- Membership in the well-founded part of the parent relation. -/
def WFmem (g : WGraph) (n : String) : Prop := n ∈ wfIter g (NBound g + 1)

/-- Least iteration index at which n appears, searched upward with fuel. -/
def rnkUp (g : WGraph) (n : String) : Nat → Nat → Nat
  | 0, k => k
  | fuel + 1, k => if n ∈ wfIter g k then k else rnkUp g n fuel (k + 1)

/-- Rank of a node: least k with n ∈ wfIter g k (NBound g + 2 when none). -/
def rnk (g : WGraph) (n : String) : Nat := rnkUp g n (NBound g + 2) 0

/-- Base of the exponential measure. -/
def DBase (g : WGraph) : Nat := g.edges.length + 2

/-- Measure of a ready queue: Σ DBase ^ (NBound + 2 - rank). -/
def wMeasure (g : WGraph) (ready : List String) : Nat :=
  (ready.map (fun x => DBase g ^ (NBound g + 2 - rnk g x))).sum

/-- Scheduler invariant: ready nodes that exist in the graph, and all
    completed nodes, lie in the well-founded part. -/
def WfInv (g : WGraph) (st : WfState) : Prop :=
  (∀ x ∈ st.ready, x ∈ nodeIds g → WFmem g x) ∧
  (∀ x ∈ st.completed, WFmem g x)

/-- Neither node of the cyclic pair has been scheduled, completed, or given
    a result entry. -/
def CycFree (a b : String) (st : WfState) : Prop :=
  a ∉ st.ready ∧ b ∉ st.ready ∧ a ∉ st.completed ∧ b ∉ st.completed ∧
  (∀ kv ∈ st.results, kv.1 ≠ a ∧ kv.1 ≠ b)

def normArgs (tc : ToolCallRec) : String :=
  if tc.arguments = "" then "\x7b\x7d" else tc.arguments

/-- The two events one structured tool call produces: its action event
    followed by its observation event. -/
def toolCallEvents (caps : Caps) (model_name : String) (tc : ToolCallRec) : List Event :=
  [⟨EventKind.action, "[ACTION] Executing tool: " ++ tc.name ++ "\nArgs: " ++ normArgs tc⟩,
   ⟨EventKind.observation,
    "[OBSERVATION] " ++ (_execute_tool caps tc.name (normArgs tc) model_name).1.1⟩]

/-- The two context entries one structured tool call appends: the assistant
    tool-call message and the role-"tool" result message. -/
def toolCallMsgs (caps : Caps) (model_name : String) (tc : ToolCallRec) : List Msg :=
  [{ role := "assistant", tool_calls := [(tc.id, tc.name, normArgs tc)] },
   { role := "tool", tool_call_id := tc.id, name := tc.name,
     content := (_execute_tool caps tc.name (normArgs tc) model_name).1.1 }]

def countKind (k : EventKind) (es : List Event) : Nat :=
  (es.filter (fun e => e.kind = k)).length

def StepRes.state : StepRes → LoopState
  | .next s => s
  | .finished s _ => s
  | .fatal s _ => s

def LoopOut.isFatal : LoopOut → Bool
  | .fatal _ => true
  | _ => false

-- ─────────────────────────────────────────────────────────────────────────────
-- Concrete environments used by witnesses and counterexamples
-- ─────────────────────────────────────────────────────────────────────────────

def caps0 : Caps :=
  { cwd := "/app", isFile := fun _ => true,
    visionChat := fun _ _ _ => .ok "a description",
    scrapeUrl := fun _ => .ok "page text",
    smtpSend := fun _ _ _ => .ok (),
    pdfRender := fun _ _ _ => .ok () }

def agent1 : AgentRec :=
  { id := 1, name := "A", role := "R", model_name := "", backstory := "", tools := "" }

def envNoAgent : Env :=
  { agents := [], respond := fun _ => .ok { content := "done", tool_calls := [] },
    caps := caps0 }

def envGood : Env :=
  { agents := [agent1],
    respond := fun _ => .ok { content := "done", tool_calls := [] }, caps := caps0 }

def envC9 : Env :=
  { agents := [agent1],
    respond := fun _ => .ok { content := "line1\nline2", tool_calls := [] }, caps := caps0 }

def envFatal : Env :=
  { agents := [agent1], respond := fun _ => .error "boom", caps := caps0 }

def cycleGraph : WGraph :=
  { nodes := [{ id := "n1", ntype := "output", key := "", config := .dict [] },
              { id := "n2", ntype := "output", key := "", config := .dict [] }],
    edges := [{ source := "n1", target := "n2" }, { source := "n2", target := "n1" }] }

/-- Record keys of a workflow result mapping. -/
def resultKeys (st : WfState) : List String := st.results.map (fun kv => kv.1)

theorem mem_wfIter_succ (g : WGraph) (k : Nat) (x : String) :
    x ∈ wfIter g (k + 1) ↔ x ∈ nodeIds g ∧ ∀ p ∈ parentsOf g x, p ∈ wfIter g k := by
  constructor
  · intro hx
    rw [wfIter, List.mem_filter] at hx
    refine ⟨hx.1, ?_⟩
    have h2 := hx.2
    simp only [List.all_eq_true, decide_eq_true_eq] at h2
    exact h2
  · intro hx
    rw [wfIter, List.mem_filter]
    refine ⟨hx.1, ?_⟩
    simp only [List.all_eq_true, decide_eq_true_eq]
    exact hx.2

theorem wfIter_succ_mono (g : WGraph) : ∀ k, wfIter g k ⊆ wfIter g (k + 1) := by
  intro k
  induction k with
  | zero => intro x hx; simp [wfIter] at hx
  | succ k ih =>
    intro x hx
    rw [mem_wfIter_succ] at hx ⊢
    exact ⟨hx.1, fun p hp => ih (hx.2 p hp)⟩

theorem wfIter_mono (g : WGraph) {j k : Nat} (h : j ≤ k) :
    wfIter g j ⊆ wfIter g k := by
  intro x hx
  induction h with
  | refl => exact hx
  | step _ ih => exact wfIter_succ_mono g _ ih

theorem wfIter_sub_nodeIds (g : WGraph) (k : Nat) : wfIter g (k + 1) ⊆ nodeIds g := by
  intro x hx
  exact ((mem_wfIter_succ g k x).1 hx).1

theorem filter_eq_filter_of_imp {α : Type} (p q : α → Bool) :
    ∀ l : List α, (∀ x ∈ l, p x = true → q x = true) →
      (l.filter q).length ≤ (l.filter p).length → l.filter p = l.filter q := by
  intro l
  induction l with
  | nil => intro _ _; rfl
  | cons x l ih =>
    intro himp hlen
    have himp' : ∀ y ∈ l, p y = true → q y = true :=
      fun y hy => himp y (List.mem_cons_of_mem _ hy)
    cases hp : p x with
    | true =>
      have hq : q x = true := himp x (List.mem_cons_self x l) hp
      rw [List.filter_cons_of_pos hp, List.filter_cons_of_pos hq]
      rw [List.filter_cons_of_pos hp, List.filter_cons_of_pos hq] at hlen
      simp only [List.length_cons, Nat.succ_le_succ_iff] at hlen
      rw [ih himp' hlen]
    | false =>
      cases hq : q x with
      | false =>
        rw [List.filter_cons_of_neg (show ¬ p x = true by simp [hp]),
            List.filter_cons_of_neg (show ¬ q x = true by simp [hq])]
        rw [List.filter_cons_of_neg (show ¬ p x = true by simp [hp]),
            List.filter_cons_of_neg (show ¬ q x = true by simp [hq])] at hlen
        exact ih himp' hlen
      | true =>
        exfalso
        have hmono : (l.filter p).length ≤ (l.filter q).length := by
          rw [← List.countP_eq_length_filter, ← List.countP_eq_length_filter]
          exact List.countP_mono_left (fun y hy hpy => himp' y hy hpy)
        rw [List.filter_cons_of_neg (show ¬ p x = true by simp [hp]),
            List.filter_cons_of_pos hq] at hlen
        simp only [List.length_cons] at hlen
        omega

theorem wfIter_pred_imp (g : WGraph) (k : Nat) :
    ∀ x ∈ nodeIds g,
      ((parentsOf g x).all (fun p => decide (p ∈ wfIter g k)) = true) →
      ((parentsOf g x).all (fun p => decide (p ∈ wfIter g (k + 1))) = true) := by
  intro x _ hx
  simp only [List.all_eq_true, decide_eq_true_eq] at hx ⊢
  exact fun p hp => wfIter_succ_mono g k (hx p hp)

theorem wfIter_stab_ge (g : WGraph) (k : Nat)
    (h : wfIter g (k + 1) = wfIter g k) :
    ∀ m, k ≤ m → wfIter g m = wfIter g k := by
  intro m hm
  induction hm with
  | refl => rfl
  | @step m _ ih =>
    calc wfIter g (m + 1) = (nodeIds g).filter (fun n =>
          (parentsOf g n).all (fun p => decide (p ∈ wfIter g m))) := rfl
    _ = (nodeIds g).filter (fun n =>
          (parentsOf g n).all (fun p => decide (p ∈ wfIter g k))) := by rw [ih]
    _ = wfIter g (k + 1) := rfl
    _ = wfIter g k := h

theorem exists_stab (g : WGraph) :
    ∃ k, k ≤ NBound g ∧ wfIter g (k + 1) = wfIter g k := by
  by_contra hc
  push_neg at hc
  have grow : ∀ k, k ≤ NBound g → (wfIter g k).length < (wfIter g (k + 1)).length := by
    intro k hk
    have hne := hc k hk
    match k with
    | 0 =>
      cases he : wfIter g (0 + 1) with
      | nil => exact absurd (by rw [he]; rfl) hne
      | cons a l =>
        rw [show wfIter g 0 = [] from rfl]
        simp
    | (j + 1) =>
      have hle : ¬ ((wfIter g (j + 1 + 1)).length ≤ (wfIter g (j + 1)).length) := by
        intro hle
        exact hne (filter_eq_filter_of_imp _ _ (nodeIds g) (wfIter_pred_imp g j) hle).symm
      omega
  have ge : ∀ k, k ≤ NBound g + 1 → k ≤ (wfIter g k).length := by
    intro k
    induction k with
    | zero => omega
    | succ k ih =>
      intro hk
      have h1 := ih (by omega)
      have h2 := grow k (by omega)
      omega
  have h3 := ge (NBound g + 1) (le_refl _)
  have h4 : (wfIter g (NBound g + 1)).length ≤ NBound g :=
    List.length_filter_le (fun n =>
      (parentsOf g n).all (fun p => decide (p ∈ wfIter g (NBound g)))) (nodeIds g)
  omega

theorem wfIter_le_top (g : WGraph) : ∀ j, wfIter g j ⊆ wfIter g (NBound g + 1) := by
  obtain ⟨k, hk, hstab⟩ := exists_stab g
  intro j x hx
  by_cases hj : j ≤ NBound g + 1
  · exact wfIter_mono g hj hx
  · have h1 : wfIter g j = wfIter g k :=
      wfIter_stab_ge g k hstab j (by omega)
    rw [h1] at hx
    exact wfIter_mono g (by omega) hx


theorem WFmem_closure (g : WGraph) (n : String) (hn : n ∈ nodeIds g)
    (hp : ∀ p ∈ parentsOf g n, WFmem g p) : WFmem g n := by
  have h2 : n ∈ wfIter g (NBound g + 1 + 1) :=
    (mem_wfIter_succ g (NBound g + 1) n).2 ⟨hn, hp⟩
  exact wfIter_le_top g _ h2


theorem rnkUp_le_add (g : WGraph) (n : String) :
    ∀ fuel k, rnkUp g n fuel k ≤ k + fuel := by
  intro fuel
  induction fuel with
  | zero => intro k; simp [rnkUp]
  | succ fuel ih =>
    intro k
    rw [rnkUp]
    by_cases h : n ∈ wfIter g k
    · simp [h]
    · simp [h]
      have := ih (k + 1)
      omega

theorem rnkUp_mem (g : WGraph) (n : String) :
    ∀ fuel k j, k ≤ j → j < k + fuel → n ∈ wfIter g j →
      n ∈ wfIter g (rnkUp g n fuel k) := by
  intro fuel
  induction fuel with
  | zero => intro k j h1 h2 _; omega
  | succ fuel ih =>
    intro k j h1 h2 hj
    rw [rnkUp]
    by_cases h : n ∈ wfIter g k
    · simp [h]
    · simp [h]
      have hne : j ≠ k := fun he => h (he ▸ hj)
      exact ih (k + 1) j (by omega) (by omega) hj

theorem rnkUp_le_of_mem (g : WGraph) (n : String) :
    ∀ fuel k j, k ≤ j → j < k + fuel → n ∈ wfIter g j →
      rnkUp g n fuel k ≤ j := by
  intro fuel
  induction fuel with
  | zero => intro k j h1 h2 _; omega
  | succ fuel ih =>
    intro k j h1 h2 hj
    rw [rnkUp]
    by_cases h : n ∈ wfIter g k
    · simp [h]; omega
    · simp [h]
      have hne : j ≠ k := fun he => h (he ▸ hj)
      exact ih (k + 1) j (by omega) (by omega) hj

theorem rnkUp_least (g : WGraph) (n : String) :
    ∀ fuel k j, k ≤ j → j < rnkUp g n fuel k → n ∉ wfIter g j := by
  intro fuel
  induction fuel with
  | zero => intro k j h1 h2; rw [rnkUp] at h2; omega
  | succ fuel ih =>
    intro k j h1 h2
    rw [rnkUp] at h2
    by_cases h : n ∈ wfIter g k
    · simp [h] at h2; omega
    · simp [h] at h2
      by_cases hjk : j = k
      · exact hjk ▸ h
      · exact ih (k + 1) j (by omega) h2

theorem rnkUp_all_miss (g : WGraph) (n : String) :
    ∀ fuel k, (∀ j, k ≤ j → j < k + fuel → n ∉ wfIter g j) →
      rnkUp g n fuel k = k + fuel := by
  intro fuel
  induction fuel with
  | zero => intro k _; rfl
  | succ fuel ih =>
    intro k hmiss
    rw [rnkUp]
    have h : n ∉ wfIter g k := hmiss k (le_refl k) (by omega)
    simp [h]
    have := ih (k + 1) (fun j h1 h2 => hmiss j (by omega) (by omega))
    omega

theorem rnk_mem_of_WF (g : WGraph) (n : String) (h : WFmem g n) :
    n ∈ wfIter g (rnk g n) :=
  rnkUp_mem g n (NBound g + 2) 0 (NBound g + 1) (by omega) (by omega) h

theorem rnk_le_of_WF (g : WGraph) (n : String) (h : WFmem g n) :
    rnk g n ≤ NBound g + 1 :=
  rnkUp_le_of_mem g n (NBound g + 2) 0 (NBound g + 1) (by omega) (by omega) h

theorem rnk_least (g : WGraph) (n : String) :
    ∀ j, j < rnk g n → n ∉ wfIter g j :=
  fun j hj => rnkUp_least g n (NBound g + 2) 0 j (by omega) hj

theorem rnk_of_not_WF (g : WGraph) (n : String) (h : ¬ WFmem g n) :
    rnk g n = NBound g + 2 := by
  have hmiss : ∀ j, 0 ≤ j → j < 0 + (NBound g + 2) → n ∉ wfIter g j := by
    intro j _ hj hmem
    exact h (wfIter_le_top g j hmem)
  have := rnkUp_all_miss g n (NBound g + 2) 0 hmiss
  simpa using this

theorem rnk_le_top (g : WGraph) (n : String) : rnk g n ≤ NBound g + 2 := by
  have := rnkUp_le_add g n (NBound g + 2) 0
  simpa using this

theorem parent_rnk_lt (g : WGraph) (n p : String) (hn : WFmem g n)
    (hp : p ∈ parentsOf g n) : rnk g p < rnk g n := by
  have hmem := rnk_mem_of_WF g n hn
  match hr : rnk g n with
  | 0 =>
    rw [hr] at hmem
    simp [wfIter] at hmem
  | r + 1 =>
    rw [hr] at hmem
    have hpar := ((mem_wfIter_succ g r n).1 hmem).2 p hp
    have h1 : rnkUp g p (NBound g + 2) 0 ≤ r := by
      apply rnkUp_le_of_mem g p (NBound g + 2) 0 r (by omega) ?_ hpar
      have := rnk_le_top g n
      omega
    have h2 : rnk g p ≤ r := h1
    omega

/-- A child obtained from the outgoing map has the executed node among its
    parents. -/
theorem parent_of_child (g : WGraph) (n c : String) (h : c ∈ childrenOf g n) :
    n ∈ parentsOf g c := by
  simp only [childrenOf, List.mem_map, List.mem_filter] at h
  obtain ⟨e, ⟨he, hsrc⟩, htgt⟩ := h
  simp only [parentsOf, List.mem_map]
  refine ⟨e, ?_, ?_⟩
  · simp only [List.mem_filter]
    exact ⟨he, by simp [htgt]⟩
  · simpa using hsrc

theorem childrenOf_length_le (g : WGraph) (n : String) :
    (childrenOf g n).length ≤ g.edges.length := by
  simp only [childrenOf, List.length_map]
  exact List.length_filter_le _ _


theorem mem_dedupKeys_aux :
    ∀ (l acc : List String) (x : String),
      (x ∈ l.foldl (fun acc x => if x ∈ acc then acc else acc ++ [x]) acc) ↔
        (x ∈ acc ∨ x ∈ l) := by
  intro l
  induction l with
  | nil => intro acc x; simp
  | cons y l ih =>
    intro acc x
    simp only [List.foldl_cons]
    by_cases hy : y ∈ acc
    · rw [if_pos hy, ih]
      constructor
      · rintro (h | h)
        · exact Or.inl h
        · exact Or.inr (List.mem_cons_of_mem _ h)
      · rintro (h | h)
        · exact Or.inl h
        · rcases List.mem_cons.1 h with rfl | h2
          · exact Or.inl hy
          · exact Or.inr h2
    · rw [if_neg hy, ih]
      simp only [List.mem_append, List.mem_cons, List.mem_singleton]
      tauto

theorem mem_dedupKeys (l : List String) (x : String) :
    x ∈ dedupKeys l ↔ x ∈ l := by
  unfold dedupKeys
  rw [mem_dedupKeys_aux]
  simp

theorem lookupNode_mem (g : WGraph) (nid : String) (node : WNode)
    (h : lookupNode g nid = some node) : nid ∈ nodeIds g := by
  unfold lookupNode at h
  have hpred := List.find?_some h
  have hmem := List.mem_of_find?_eq_some h
  rw [List.mem_reverse] at hmem
  simp only [decide_eq_true_eq] at hpred
  rw [nodeIds, mem_dedupKeys]
  exact hpred ▸ List.mem_map_of_mem (fun n => n.id) hmem

theorem setResult_keys (rs : List (String × PyVal)) (k : String) (v : PyVal) :
    ∀ kv ∈ setResult rs k v, kv.1 = k ∨ kv ∈ rs := by
  intro kv hkv
  unfold setResult at hkv
  by_cases hany : rs.any (fun kv => kv.1 = k)
  · rw [if_pos hany] at hkv
    rcases List.mem_map.1 hkv with ⟨kv0, hkv0, heq⟩
    by_cases hk : kv0.1 = k
    · rw [if_pos (by simpa using hk)] at heq
      exact Or.inl (by rw [← heq])
    · rw [if_neg (by simpa using hk)] at heq
      exact Or.inr (heq ▸ hkv0)
  · rw [if_neg hany] at hkv
    rcases List.mem_append.1 hkv with h | h
    · exact Or.inr h
    · exact Or.inl (by simpa using congrArg Prod.fst (List.mem_singleton.1 h))

/-- Structural description of a successful scheduler step. -/
theorem wfStep_ok_spec (env : Env) (g : WGraph) (nid : String) (rest : List String)
    (st st2 : WfState) (h : wfStep env g nid rest st = .ok st2) :
    nid ∈ nodeIds g ∧
    st2.completed = (if nid ∈ st.completed then st.completed else st.completed ++ [nid]) ∧
    st2.ready = rest ++ (childrenOf g nid).filter (fun c =>
      (parentsOf g c).all (fun p => decide (p ∈
        (if nid ∈ st.completed then st.completed else st.completed ++ [nid])))) ∧
    (∃ r, st2.results = setResult st.results nid r) := by
  unfold wfStep at h
  cases hl : lookupNode g nid with
  | none => rw [hl] at h; simp at h
  | some node =>
    rw [hl] at h
    dsimp only at h
    split at h
    · simp at h
    · rename_i r t db2 heq
      injection h with h3
      refine ⟨lookupNode_mem g nid node hl, ?_, ?_, ⟨r, ?_⟩⟩ <;> rw [← h3]


theorem pushed_rank_gt (g : WGraph) (nid c : String) (completed2 : List String)
    (hnidWF : WFmem g nid)
    (hcomp : ∀ x ∈ completed2, WFmem g x)
    (hc : c ∈ childrenOf g nid)
    (hq : (parentsOf g c).all (fun p => decide (p ∈ completed2)) = true) :
    rnk g nid < rnk g c := by
  have hq' : ∀ p ∈ parentsOf g c, p ∈ completed2 := by
    simpa only [List.all_eq_true, decide_eq_true_eq] using hq
  by_cases hcn : c ∈ nodeIds g
  · have hWFc : WFmem g c :=
      WFmem_closure g c hcn (fun p hp => hcomp p (hq' p hp))
    exact parent_rnk_lt g c nid hWFc (parent_of_child g nid c hc)
  · have hnc : ¬ WFmem g c := fun hW => hcn (wfIter_sub_nodeIds g _ hW)
    rw [rnk_of_not_WF g c hnc]
    have := rnk_le_of_WF g nid hnidWF
    omega

theorem wMeasure_append (g : WGraph) (l1 l2 : List String) :
    wMeasure g (l1 ++ l2) = wMeasure g l1 + wMeasure g l2 := by
  unfold wMeasure
  rw [List.map_append, List.sum_append]

theorem wMeasure_cons (g : WGraph) (x : String) (l : List String) :
    wMeasure g (x :: l) = DBase g ^ (NBound g + 2 - rnk g x) + wMeasure g l := by
  unfold wMeasure
  rw [List.map_cons, List.sum_cons]

theorem pushed_sum_lt (g : WGraph) (nid : String) (P : List String)
    (hrk : ∀ c ∈ P, rnk g nid < rnk g c)
    (hnid : rnk g nid ≤ NBound g + 1)
    (hlen : P.length ≤ g.edges.length) :
    wMeasure g P < DBase g ^ (NBound g + 2 - rnk g nid) := by
  have hD : 0 < DBase g := by unfold DBase; omega
  have hterm : ∀ y ∈ P.map (fun x => DBase g ^ (NBound g + 2 - rnk g x)),
      y ≤ DBase g ^ (NBound g + 1 - rnk g nid) := by
    intro y hy
    rcases List.mem_map.1 hy with ⟨c, hc, rfl⟩
    apply Nat.pow_le_pow_right hD
    have := hrk c hc
    omega
  have hsum : wMeasure g P ≤ P.length * DBase g ^ (NBound g + 1 - rnk g nid) := by
    have := List.sum_le_card_nsmul
      (P.map (fun x => DBase g ^ (NBound g + 2 - rnk g x)))
      (DBase g ^ (NBound g + 1 - rnk g nid)) hterm
    simpa [wMeasure, smul_eq_mul] using this
  have hsplit : NBound g + 2 - rnk g nid = (NBound g + 1 - rnk g nid) + 1 := by omega
  rw [hsplit, pow_succ]
  have hXpos : 0 < DBase g ^ (NBound g + 1 - rnk g nid) := Nat.pos_pow_of_pos _ hD
  calc wMeasure g P ≤ P.length * DBase g ^ (NBound g + 1 - rnk g nid) := hsum
    _ ≤ g.edges.length * DBase g ^ (NBound g + 1 - rnk g nid) :=
        Nat.mul_le_mul_right _ hlen
    _ < DBase g ^ (NBound g + 1 - rnk g nid) * DBase g := by
        rw [Nat.mul_comm]
        exact Nat.mul_lt_mul_of_pos_left (by unfold DBase; omega) hXpos
/-- One successful scheduler step preserves the invariant and strictly
    decreases the ready-queue measure. -/
theorem wfStep_preserves (env : Env) (g : WGraph) (nid : String)
    (rest : List String) (st st2 : WfState)
    (hready : st.ready = nid :: rest) (hinv : WfInv g st)
    (h : wfStep env g nid rest st = .ok st2) :
    WfInv g st2 ∧ wMeasure g st2.ready < wMeasure g st.ready := by
  obtain ⟨hnidIds, hcompEq, hreadyEq, _r, _hres⟩ := wfStep_ok_spec env g nid rest st st2 h
  have hnidReady : nid ∈ st.ready := by rw [hready]; exact List.mem_cons_self _ _
  have hnidWF : WFmem g nid := hinv.1 nid hnidReady hnidIds
  have hcomp2 : ∀ x ∈ (if nid ∈ st.completed then st.completed else st.completed ++ [nid]),
      WFmem g x := by
    intro x hx
    by_cases hmem : nid ∈ st.completed
    · rw [if_pos hmem] at hx; exact hinv.2 x hx
    · rw [if_neg hmem] at hx
      rcases List.mem_append.1 hx with h1 | h1
      · exact hinv.2 x h1
      · rw [List.mem_singleton.1 h1]; exact hnidWF
  constructor
  · constructor
    · intro x hx hxIds
      rw [hreadyEq] at hx
      rcases List.mem_append.1 hx with h1 | h1
      · exact hinv.1 x (by rw [hready]; exact List.mem_cons_of_mem _ h1) hxIds
      · have h2 := List.mem_filter.1 h1
        have hq' : ∀ p ∈ parentsOf g x,
            p ∈ (if nid ∈ st.completed then st.completed else st.completed ++ [nid]) := by
          simpa only [List.all_eq_true, decide_eq_true_eq] using h2.2
        exact WFmem_closure g x hxIds (fun p hp => hcomp2 p (hq' p hp))
    · rw [hcompEq]; exact hcomp2
  · rw [hreadyEq, hready, wMeasure_append, wMeasure_cons]
    have hdec := pushed_sum_lt g nid
      ((childrenOf g nid).filter (fun c => (parentsOf g c).all (fun p => decide (p ∈
        (if nid ∈ st.completed then st.completed else st.completed ++ [nid])))))
      (fun c hc => pushed_rank_gt g nid c _ hnidWF hcomp2 (List.mem_filter.1 hc).1
        (List.mem_filter.1 hc).2)
      (rnk_le_of_WF g nid hnidWF)
      (le_trans (List.length_filter_le _ _) (childrenOf_length_le g nid))
    omega

theorem wfRun_settles (env : Env) (g : WGraph) :
    ∀ m st, WfInv g st → wMeasure g st.ready ≤ m →
      (wfRun env g (m + 1) st).isSettled = true := by
  intro m
  induction m with
  | zero =>
    intro st hinv hm
    rw [wfRun]
    match hr : st.ready with
    | [] => rfl
    | nid :: rest =>
      exfalso
      have h1 : 0 < DBase g ^ (NBound g + 2 - rnk g nid) :=
        Nat.pos_pow_of_pos _ (by unfold DBase; omega)
      have h2 : 0 < wMeasure g st.ready := by
        rw [hr, wMeasure_cons]; omega
      omega
  | succ m ih =>
    intro st hinv hm
    match hr : st.ready with
    | [] => rw [wfRun, hr]; rfl
    | nid :: rest =>
      have hgoal : wfRun env g (m + 1 + 1) st =
          (match wfStep env g nid rest st with
           | .error e => WfOut.failed st e
           | .ok st2 => wfRun env g (m + 1) st2) := by
        rw [wfRun, hr]
      rw [hgoal]
      cases hs : wfStep env g nid rest st with
      | error e => rfl
      | ok st2 =>
        obtain ⟨hinv2, hdec⟩ := wfStep_preserves env g nid rest st st2 hr hinv hs
        exact ih st2 hinv2 (by omega)

theorem initWf_inv (g : WGraph) (db : List TaskLogRec) : WfInv g (initWf g db) := by
  constructor
  · intro x hx _
    simp only [initWf, List.mem_filter] at hx
    have hpe : parentsOf g x = [] := by
      have h2 := hx.2
      simpa [List.isEmpty_iff] using h2
    apply wfIter_mono g (show (1 : Nat) ≤ NBound g + 1 by omega)
    rw [show (1 : Nat) = 0 + 1 from rfl, mem_wfIter_succ]
    exact ⟨hx.1, by rw [hpe]; simp⟩
  · intro x hx
    simp [initWf] at hx


theorem wfStep_cycfree (env : Env) (g : WGraph) (nid : String)
    (rest : List String) (st st2 : WfState) (a b : String)
    (ha1 : parentsOf g a ≠ []) (ha2 : ∀ p ∈ parentsOf g a, p = b)
    (hb1 : parentsOf g b ≠ []) (hb2 : ∀ p ∈ parentsOf g b, p = a)
    (hready : st.ready = nid :: rest)
    (hcf : CycFree a b st) (h : wfStep env g nid rest st = .ok st2) :
    CycFree a b st2 := by
  obtain ⟨_, hcompEq, hreadyEq, r, hres⟩ := wfStep_ok_spec env g nid rest st st2 h
  obtain ⟨hra, hrb, hca, hcb, hkeys⟩ := hcf
  have hnida : nid ≠ a := fun he => hra (by rw [hready, ← he]; exact List.mem_cons_self _ _)
  have hnidb : nid ≠ b := fun he => hrb (by rw [hready, ← he]; exact List.mem_cons_self _ _)
  have hc2a : a ∉ (if nid ∈ st.completed then st.completed else st.completed ++ [nid]) := by
    by_cases hm : nid ∈ st.completed
    · rw [if_pos hm]; exact hca
    · rw [if_neg hm]
      intro hx
      rcases List.mem_append.1 hx with h1 | h1
      · exact hca h1
      · exact hnida (List.mem_singleton.1 h1).symm
  have hc2b : b ∉ (if nid ∈ st.completed then st.completed else st.completed ++ [nid]) := by
    by_cases hm : nid ∈ st.completed
    · rw [if_pos hm]; exact hcb
    · rw [if_neg hm]
      intro hx
      rcases List.mem_append.1 hx with h1 | h1
      · exact hcb h1
      · exact hnidb (List.mem_singleton.1 h1).symm
  refine ⟨?_, ?_, by rw [hcompEq]; exact hc2a, by rw [hcompEq]; exact hc2b, ?_⟩
  · rw [hreadyEq]
    intro hx
    rcases List.mem_append.1 hx with h1 | h1
    · exact hra (by rw [hready]; exact List.mem_cons_of_mem _ h1)
    · have h2 := List.mem_filter.1 h1
      have hq : ∀ p ∈ parentsOf g a,
          p ∈ (if nid ∈ st.completed then st.completed else st.completed ++ [nid]) := by
        simpa only [List.all_eq_true, decide_eq_true_eq] using h2.2
      obtain ⟨p, hp⟩ := List.exists_mem_of_ne_nil _ ha1
      have := hq p hp
      rw [ha2 p hp] at this
      exact hc2b this
  · rw [hreadyEq]
    intro hx
    rcases List.mem_append.1 hx with h1 | h1
    · exact hrb (by rw [hready]; exact List.mem_cons_of_mem _ h1)
    · have h2 := List.mem_filter.1 h1
      have hq : ∀ p ∈ parentsOf g b,
          p ∈ (if nid ∈ st.completed then st.completed else st.completed ++ [nid]) := by
        simpa only [List.all_eq_true, decide_eq_true_eq] using h2.2
      obtain ⟨p, hp⟩ := List.exists_mem_of_ne_nil _ hb1
      have := hq p hp
      rw [hb2 p hp] at this
      exact hc2a this
  · rw [hres]
    intro kv hkv
    rcases setResult_keys st.results nid r kv hkv with h1 | h1
    · exact ⟨h1 ▸ hnida, h1 ▸ hnidb⟩
    · exact hkeys kv h1

theorem wfRun_cycfree (env : Env) (g : WGraph) (a b : String)
    (ha1 : parentsOf g a ≠ []) (ha2 : ∀ p ∈ parentsOf g a, p = b)
    (hb1 : parentsOf g b ≠ []) (hb2 : ∀ p ∈ parentsOf g b, p = a) :
    ∀ fuel st, CycFree a b st → CycFree a b ((wfRun env g fuel st).state) := by
  intro fuel
  induction fuel with
  | zero => intro st hcf; exact hcf
  | succ fuel ih =>
    intro st hcf
    match hr : st.ready with
    | [] =>
      rw [wfRun, hr]
      exact hcf
    | nid :: rest =>
      have hgoal : wfRun env g (fuel + 1) st =
          (match wfStep env g nid rest st with
           | .error e => WfOut.failed st e
           | .ok st2 => wfRun env g fuel st2) := by
        rw [wfRun, hr]
      rw [hgoal]
      cases hs : wfStep env g nid rest st with
      | error e => exact hcf
      | ok st2 =>
        exact ih st2 (wfStep_cycfree env g nid rest st st2 a b ha1 ha2 hb1 hb2 hr hcf hs)

theorem initWf_cycfree (g : WGraph) (db : List TaskLogRec) (a b : String)
    (ha1 : parentsOf g a ≠ []) (hb1 : parentsOf g b ≠ []) :
    CycFree a b (initWf g db) := by
  refine ⟨?_, ?_, by simp [initWf], by simp [initWf], by simp [initWf]⟩
  · intro hx
    simp only [initWf, List.mem_filter] at hx
    exact ha1 (by simpa [List.isEmpty_iff] using hx.2)
  · intro hx
    simp only [initWf, List.mem_filter] at hx
    exact hb1 (by simpa [List.isEmpty_iff] using hx.2)

-- ─────────────────────────────────────────────────────────────────────────────
-- Reasoning-loop lemmas: per-turn tool drains, event kinds, message growth
-- ─────────────────────────────────────────────────────────────────────────────


theorem drainCalls_spec (caps : Caps) (mn : String) (step : Nat) :
    ∀ tcs s,
      (drainCalls caps mn step tcs s).messages
          = s.messages ++ tcs.flatMap (toolCallMsgs caps mn) ∧
      (drainCalls caps mn step tcs s).events
          = s.events ++ tcs.flatMap (toolCallEvents caps mn) ∧
      (drainCalls caps mn step tcs s).queries = s.queries := by
  intro tcs
  induction tcs with
  | nil => intro s; simp [drainCalls]
  | cons tc tcs ih =>
    intro s
    rw [drainCalls]
    refine ⟨?_, ?_, ?_⟩
    · rw [(ih _).1]
      simp [toolCallMsgs, normArgs, List.append_assoc]
    · rw [(ih _).2.1]
      simp [toolCallEvents, normArgs, List.append_assoc]
    · rw [(ih _).2.2]

theorem flatMap_events_len (caps : Caps) (mn : String) :
    ∀ tcs : List ToolCallRec,
      countKind .action (tcs.flatMap (toolCallEvents caps mn)) = tcs.length ∧
      countKind .observation (tcs.flatMap (toolCallEvents caps mn)) = tcs.length ∧
      (∀ e ∈ tcs.flatMap (toolCallEvents caps mn),
        e.kind = .action ∨ e.kind = .observation) := by
  intro tcs
  induction tcs with
  | nil => simp [countKind]
  | cons tc tcs ih =>
    refine ⟨?_, ?_, ?_⟩
    · simp only [List.flatMap_cons, countKind, List.filter_append, List.length_append]
      have h1 := ih.1
      simp only [countKind] at h1
      simp [toolCallEvents, h1, List.length_cons]
      omega
    · simp only [List.flatMap_cons, countKind, List.filter_append, List.length_append]
      have h1 := ih.2.1
      simp only [countKind] at h1
      simp [toolCallEvents, h1, List.length_cons]
      omega
    · intro e he
      simp only [List.flatMap_cons, List.mem_append] at he
      rcases he with he | he
      · simp only [toolCallEvents, List.mem_cons, List.mem_singleton] at he
        rcases he with rfl | rfl | h
        · exact Or.inl rfl
        · exact Or.inr rfl
        · simp at h
      · exact ih.2.2 e he

theorem flatMap_msgs_len (caps : Caps) (mn : String) :
    ∀ tcs : List ToolCallRec,
      (tcs.flatMap (toolCallMsgs caps mn)).length = 2 * tcs.length := by
  intro tcs
  induction tcs with
  | nil => simp
  | cons tc tcs ih =>
    simp only [List.flatMap_cons, List.length_append, ih, toolCallMsgs]
    simp [List.length_cons]
    omega


/-- Every loop iteration only appends events (thought/action/observation),
    only appends messages, and performs at most one model call. -/
theorem reactStep_spec (env : Env) (mn : String) (step : Nat) (s : LoopState) :
    (∃ es, (reactStep env mn step s).state.events = s.events ++ es ∧
      ∀ e ∈ es, e.kind = .thought ∨ e.kind = .action ∨ e.kind = .observation) ∧
    s.messages <+: (reactStep env mn step s).state.messages ∧
    (reactStep env mn step s).state.queries ≤ s.queries + 1 := by
  simp only [reactStep]
  cases hre : env.respond s.queries with
  | error e =>
    simp only [StepRes.state]
    refine ⟨⟨_, rfl, ?_⟩, List.prefix_rfl, by omega⟩
    intro ev hev
    rcases List.mem_singleton.1 hev with rfl
    exact Or.inl rfl
  | ok resp =>
    dsimp only
    by_cases hc : resp.content = ""
    · cases htc : resp.tool_calls with
      | nil =>
        simp only [hc, ne_eq, not_true_eq_false, List.isEmpty_nil, Bool.true_eq_false, Bool.false_eq_true, ite_false, ite_true, StepRes.state]
        refine ⟨⟨_, rfl, ?_⟩, List.prefix_rfl, by omega⟩
        intro ev hev
        rcases List.mem_singleton.1 hev with rfl
        exact Or.inl rfl
      | cons tc tcs =>
        have hd := drainCalls_spec env.caps mn step (tc :: tcs)
          { s with
            events := s.events ++
              [⟨EventKind.thought, "[Step " ++ toString (step + 1) ++ "] Querying model " ++ mn ++ "…"⟩],
            queries := s.queries + 1 }
        simp only [hc, ne_eq, not_true_eq_false, List.isEmpty_cons, Bool.true_eq_false, Bool.false_eq_true, ite_false, ite_true, StepRes.state]
        refine ⟨⟨[⟨EventKind.thought,
            "[Step " ++ toString (step + 1) ++ "] Querying model " ++ mn ++ "…"⟩] ++
            (tc :: tcs).flatMap (toolCallEvents env.caps mn), ?_, ?_⟩, ?_, ?_⟩
        · rw [hd.2.1]
          simp [List.append_assoc]
        · intro ev hev
          rcases List.mem_append.1 hev with h1 | h1
          · rcases List.mem_singleton.1 h1 with rfl
            exact Or.inl rfl
          · rcases (flatMap_events_len env.caps mn (tc :: tcs)).2.2 ev h1 with h2 | h2
            · exact Or.inr (Or.inl h2)
            · exact Or.inr (Or.inr h2)
        · rw [hd.1]
          exact List.prefix_append _ _
        · rw [hd.2.2]
    · cases htc : resp.tool_calls with
      | nil =>
        cases hpi : _parse_inline_tool_call resp.content with
        | none =>
          simp only [hc, ne_eq, not_false_eq_true, List.isEmpty_nil, Bool.true_eq_false,
            Bool.false_eq_true, ite_false, ite_true, StepRes.state, hpi]
          refine ⟨⟨[⟨EventKind.thought,
              "[Step " ++ toString (step + 1) ++ "] Querying model " ++ mn ++ "…"⟩,
              ⟨EventKind.thought, resp.content⟩], ?_, ?_⟩, List.prefix_rfl, by omega⟩
          · simp [List.append_assoc]
          · intro ev hev
            rcases List.mem_cons.1 hev with rfl | h1
            · exact Or.inl rfl
            · rcases List.mem_singleton.1 h1 with rfl
              exact Or.inl rfl
        | some pr =>
          obtain ⟨tn, kvs⟩ := pr
          simp only [hc, ne_eq, not_false_eq_true, List.isEmpty_nil, Bool.true_eq_false,
            Bool.false_eq_true, ite_false, ite_true, StepRes.state, hpi]
          refine ⟨⟨([⟨EventKind.thought,
              "[Step " ++ toString (step + 1) ++ "] Querying model " ++ mn ++ "…"⟩] ++
              [⟨EventKind.thought, resp.content⟩]) ++
              ([⟨EventKind.action, "[ACTION] Intercepted inline tool call: " ++ tn ++
                "\nArgs: " ++ jsonDumps (.dict kvs)⟩] ++
               [⟨EventKind.observation, "[OBSERVATION] " ++
                (_execute_tool env.caps tn (jsonDumps (.dict kvs)) mn).1.1⟩]), ?_, ?_⟩, ?_, ?_⟩
          · simp [List.append_assoc]
          · intro ev hev
            rcases List.mem_append.1 hev with h1 | h1
            · rcases List.mem_append.1 h1 with h2 | h2
              · rcases List.mem_singleton.1 h2 with rfl
                exact Or.inl rfl
              · rcases List.mem_singleton.1 h2 with rfl
                exact Or.inl rfl
            · rcases List.mem_append.1 h1 with h2 | h2
              · rcases List.mem_singleton.1 h2 with rfl
                exact Or.inr (Or.inl rfl)
              · rcases List.mem_singleton.1 h2 with rfl
                exact Or.inr (Or.inr rfl)
          · exact List.prefix_append _ _
          · omega
      | cons tc tcs =>
        have hd := drainCalls_spec env.caps mn step (tc :: tcs)
          { s with
            thought_log := s.thought_log ++
              ["THOUGHT (step " ++ toString step ++ "): " ++ resp.content],
            events := (s.events ++
              [⟨EventKind.thought, "[Step " ++ toString (step + 1) ++ "] Querying model " ++ mn ++ "…"⟩]) ++
              [⟨EventKind.thought, resp.content⟩],
            queries := s.queries + 1 }
        simp only [hc, ne_eq, not_false_eq_true, List.isEmpty_cons, Bool.true_eq_false, Bool.false_eq_true, ite_false, ite_true, StepRes.state]
        refine ⟨⟨([⟨EventKind.thought,
            "[Step " ++ toString (step + 1) ++ "] Querying model " ++ mn ++ "…"⟩] ++
            [⟨EventKind.thought, resp.content⟩]) ++
            (tc :: tcs).flatMap (toolCallEvents env.caps mn), ?_, ?_⟩, ?_, ?_⟩
        · rw [hd.2.1]
          simp [List.append_assoc]
        · intro ev hev
          rcases List.mem_append.1 hev with h1 | h1
          · rcases List.mem_append.1 h1 with h2 | h2
            · rcases List.mem_singleton.1 h2 with rfl
              exact Or.inl rfl
            · rcases List.mem_singleton.1 h2 with rfl
              exact Or.inl rfl
          · rcases (flatMap_events_len env.caps mn (tc :: tcs)).2.2 ev h1 with h2 | h2
            · exact Or.inr (Or.inl h2)
            · exact Or.inr (Or.inr h2)
        · rw [hd.1]
          exact List.prefix_append _ _
        · rw [hd.2.2]


/-- The only way an iteration ends fatally is the model call raising. -/
theorem reactStep_not_fatal (env : Env) (mn : String) (step : Nat) (s : LoopState)
    (hok : (env.respond s.queries).isOk = true) :
    ∀ s2 e, reactStep env mn step s ≠ .fatal s2 e := by
  intro s2 e
  simp only [reactStep]
  cases hre : env.respond s.queries with
  | error e2 => rw [hre] at hok; simp [Except.isOk, Except.toBool] at hok
  | ok resp =>
    dsimp only
    by_cases hc : resp.content = ""
    · cases htc : resp.tool_calls with
      | nil =>
        simp [hc]
      | cons tc tcs =>
        simp [hc]
    · cases htc : resp.tool_calls with
      | nil =>
        cases hpi : _parse_inline_tool_call resp.content with
        | none => simp [hc, hpi]
        | some pr =>
          obtain ⟨tn, kvs⟩ := pr
          simp [hc, hpi]
      | cons tc tcs =>
        simp [hc]

theorem runSteps_spec (env : Env) (mn : String) :
    ∀ fuel step s,
      (∃ es, (runSteps env mn fuel step s).1.events = s.events ++ es ∧
        ∀ e ∈ es, e.kind = .thought ∨ e.kind = .action ∨ e.kind = .observation) ∧
      s.messages <+: (runSteps env mn fuel step s).1.messages ∧
      (runSteps env mn fuel step s).1.queries ≤ s.queries + fuel := by
  intro fuel
  induction fuel with
  | zero =>
    intro step s
    exact ⟨⟨[], by simp [runSteps], by simp⟩, List.prefix_rfl, by simp [runSteps]⟩
  | succ fuel ih =>
    intro step s
    have hstep := reactStep_spec env mn step s
    rw [runSteps]
    cases hrs : reactStep env mn step s with
    | next s1 =>
      dsimp only
      have hs1 := ih (step + 1) s1
      rw [hrs] at hstep
      simp only [StepRes.state] at hstep
      obtain ⟨⟨es1, he1, hk1⟩, hm1, hq1⟩ := hstep
      obtain ⟨⟨es2, he2, hk2⟩, hm2, hq2⟩ := hs1
      refine ⟨⟨es1 ++ es2, ?_, ?_⟩, hm1.trans hm2, by omega⟩
      · rw [he2, he1, List.append_assoc]
      · intro ev hev
        rcases List.mem_append.1 hev with h | h
        · exact hk1 ev h
        · exact hk2 ev h
    | finished s1 fo =>
      dsimp only
      rw [hrs] at hstep
      simp only [StepRes.state] at hstep
      obtain ⟨⟨es1, he1, hk1⟩, hm1, hq1⟩ := hstep
      exact ⟨⟨es1, he1, hk1⟩, hm1, by omega⟩
    | fatal s1 e =>
      dsimp only
      rw [hrs] at hstep
      simp only [StepRes.state] at hstep
      obtain ⟨⟨es1, he1, hk1⟩, hm1, hq1⟩ := hstep
      exact ⟨⟨es1, he1, hk1⟩, hm1, by omega⟩

theorem runSteps_not_fatal (env : Env) (mn : String)
    (hok : ∀ i, (env.respond i).isOk = true) :
    ∀ fuel step s, ((runSteps env mn fuel step s).2).isFatal = false := by
  intro fuel
  induction fuel with
  | zero => intro step s; rfl
  | succ fuel ih =>
    intro step s
    rw [runSteps]
    cases hrs : reactStep env mn step s with
    | next s1 => dsimp only; exact ih (step + 1) s1
    | finished s1 fo => rfl
    | fatal s1 e => exact absurd hrs (reactStep_not_fatal env mn step s (hok s.queries) s1 e)

/-- On runs where the agent exists and every model call succeeds, the
    try-body ends by persisting one TaskLog and emitting the final event. -/
theorem stream_core_good (env : Env) (db : List TaskLogRec) (aid : Int)
    (prompt : String) (img : Option String) (a : AgentRec)
    (hagent : sessionGetAgent env.agents aid = some a)
    (hok : ∀ i, (env.respond i).isOk = true) :
    ∃ s1 final_answer,
      stream_core env db aid prompt img =
        { events := s1.events ++
            [⟨EventKind.final, dumpPayload ((db.length : Int) + 1) a.id final_answer s1.last_artifact⟩],
          db := db ++ [mkTaskLog db a prompt s1 final_answer],
          trace := s1.trace, model_calls := s1.queries } ∧
      (∀ e ∈ s1.events, e.kind = .thought ∨ e.kind = .action ∨ e.kind = .observation) ∧
      s1.queries ≤ MAX_REACT_STEPS := by
  have hspec := runSteps_spec env (agentModelName a) MAX_REACT_STEPS 0
    (initialLoopState a prompt img)
  have hnf := runSteps_not_fatal env (agentModelName a) hok MAX_REACT_STEPS 0
    (initialLoopState a prompt img)
  rw [stream_core.eq_def, hagent]
  dsimp only
  rcases hrs : runSteps env (agentModelName a) MAX_REACT_STEPS 0
      (initialLoopState a prompt img) with ⟨s1, o⟩
  rw [hrs] at hspec hnf
  obtain ⟨⟨es, hes, hkinds⟩, _hm, hq⟩ := hspec
  have hevents : ∀ e ∈ s1.events, e.kind = .thought ∨ e.kind = .action ∨ e.kind = .observation := by
    intro e he
    have : s1.events = es := by simpa [initialLoopState] using hes
    exact hkinds e (this ▸ he)
  have hq1 : s1.queries ≤ MAX_REACT_STEPS := by
    simpa [initialLoopState] using hq
  cases o with
  | budget => exact ⟨s1, NO_RESPONSE_ANSWER, rfl, hevents, hq1⟩
  | final fo =>
    cases fo with
    | none => exact ⟨s1, NO_RESPONSE_ANSWER, rfl, hevents, hq1⟩
    | some ans => exact ⟨s1, ans, rfl, hevents, hq1⟩
  | fatal e => simp [LoopOut.isFatal] at hnf

-- ─────────────────────────────────────────────────────────────────────────────
-- Path lemmas for the report-filename analysis
-- ─────────────────────────────────────────────────────────────────────────────

theorem normAux_clean :
    ∀ (l stack : List String), (∀ c ∈ l, c ≠ "." ∧ c ≠ "..") →
      normAux stack l = stack.reverse ++ l := by
  intro l
  induction l with
  | nil => intro stack _; simp [normAux]
  | cons c cs ih =>
    intro stack hcl
    have hc := hcl c (List.mem_cons_self _ _)
    show (if c = "." then normAux stack cs
      else if c = ".." then
        (match stack with
         | [] => normAux [] cs
         | _ :: t => normAux t cs)
      else normAux (c :: stack) cs) = stack.reverse ++ c :: cs
    rw [if_neg hc.1, if_neg hc.2]
    rw [ih (c :: stack) (fun x hx => hcl x (List.mem_cons_of_mem _ hx))]
    simp

theorem pathlibName_ne_dot (f : String) : pathlibName f ≠ "." := by
  unfold pathlibName
  cases hl : ((splitParts f).filter (fun c => c ≠ ".")).getLast? with
  | none => simp
  | some x =>
    simp only [Option.getD_some]
    have hx := List.mem_of_getLast?_eq_some hl
    have := (List.mem_filter.1 hx).2
    simpa using this

theorem splitSlashAux_no_slash (cur : List Char) (l : List Char)
    (hl : '/' ∉ l) : splitSlashAux cur l = [String.mk (cur.reverse ++ l)] := by
  induction l generalizing cur with
  | nil => simp [splitSlashAux]
  | cons c cs ih =>
    have hc : c ≠ '/' := fun he => hl (he ▸ List.mem_cons_self _ _)
    rw [splitSlashAux, if_neg hc]
    rw [ih (c :: cur) (fun hm => hl (List.mem_cons_of_mem _ hm))]
    simp

theorem splitSlashAux_split (cur : List Char) (a b : List Char)
    (ha : '/' ∉ a) :
    splitSlashAux cur (a ++ '/' :: b) =
      String.mk (cur.reverse ++ a) :: splitSlashAux [] b := by
  induction a generalizing cur with
  | nil => simp [splitSlashAux]
  | cons c cs ih =>
    have hc : c ≠ '/' := fun he => ha (he ▸ List.mem_cons_self _ _)
    rw [List.cons_append, splitSlashAux, if_neg hc]
    rw [ih (c :: cur) (fun hm => ha (List.mem_cons_of_mem _ hm))]
    simp

theorem mk_toList (s : String) : String.mk s.toList = s := rfl

theorem splitParts_concat (d f : String) (hd : '/' ∉ d.toList) (hf : '/' ∉ f.toList) :
    splitParts (d ++ "/" ++ f) =
      ([d].filter (fun p => p ≠ "")) ++ ([f].filter (fun p => p ≠ "")) := by
  unfold splitParts
  have htl : (d ++ "/" ++ f).toList = d.toList ++ '/' :: f.toList := by
    show (d ++ "/" ++ f).data = d.data ++ '/' :: f.data
    rw [String.data_append, String.data_append, List.append_assoc]
    rfl
  rw [htl, splitSlashAux_split [] d.toList f.toList hd]
  rw [splitSlashAux_no_slash [] f.toList hf]
  simp only [List.reverse_nil, List.nil_append, mk_toList]
  by_cases hdn : d = "" <;> by_cases hfn : f = "" <;>
    simp [hdn, hfn, List.filter_cons]


theorem stream_db_prefix (env : Env) (db : List TaskLogRec) (aid : Int)
    (prompt : String) (img : Option String) :
    db <+: (stream_agent_task env db aid prompt img).db := by
  show db <+: (stream_core env db aid prompt img).db
  rw [stream_core.eq_def]
  cases hagent : sessionGetAgent env.agents aid with
  | none => exact List.prefix_rfl
  | some a =>
    dsimp only
    rcases hrs : runSteps env (agentModelName a) MAX_REACT_STEPS 0
        (initialLoopState a prompt img) with ⟨s1, o⟩
    cases o with
    | budget => exact List.prefix_append _ _
    | final fo => exact List.prefix_append _ _
    | fatal e => exact List.prefix_rfl

-- ─────────────────────────────────────────────────────────────────────────────
-- Claim theorems
-- ─────────────────────────────────────────────────────────────────────────────

/-- C5: the workflow input-merge function maps the empty list to null, passes
    a single input through unchanged, joins two or more all-string inputs with
    a blank-line separator in input order, and returns the input list
    unchanged when two or more inputs are not all strings. -/
theorem C5_merge_inputs :
    _merge_inputs [] = .none ∧
    (∀ v : PyVal, _merge_inputs [v] = v) ∧
    (∀ (s1 s2 : String) (ss : List String),
      _merge_inputs (.str s1 :: .str s2 :: ss.map PyVal.str) =
        .str (String.intercalate "\n\n" (s1 :: s2 :: ss))) ∧
    (∀ (x y : PyVal) (l : List PyVal), (x :: y :: l).all pyIsStr = false →
      _merge_inputs (x :: y :: l) = .list (x :: y :: l)) := by
  refine ⟨rfl, fun v => rfl, ?_, ?_⟩
  · intro s1 s2 ss
    show (if (PyVal.str s1 :: PyVal.str s2 :: ss.map PyVal.str).all pyIsStr then
        PyVal.str (String.intercalate "\n\n"
          ((PyVal.str s1 :: PyVal.str s2 :: ss.map PyVal.str).filterMap pyStrOf))
      else .list (PyVal.str s1 :: PyVal.str s2 :: ss.map PyVal.str)) =
      .str (String.intercalate "\n\n" (s1 :: s2 :: ss))
    rw [if_pos ?hall]
    case hall =>
      simp only [List.all_cons, List.all_eq_true, Bool.and_eq_true]
      refine ⟨rfl, rfl, ?_⟩
      intro v hv
      rcases List.mem_map.1 hv with ⟨s, _, rfl⟩
      rfl
    have hfm : (ss.map PyVal.str).filterMap pyStrOf = ss := by
      induction ss with
      | nil => rfl
      | cons s ss ih => simp [List.filterMap_cons, pyStrOf, ih]
    simp [List.filterMap_cons, pyStrOf, hfm]
  · intro x y l hall
    show (if (x :: y :: l).all pyIsStr then
        PyVal.str (String.intercalate "\n\n" ((x :: y :: l).filterMap pyStrOf))
      else .list (x :: y :: l)) = .list (x :: y :: l)
    rw [if_neg (by simp [hall])]

/-- C10: a workflow email_sender node whose configuration yields an empty or
    absent recipient list sends no mail and returns status "sent" with an
    empty recipient list, while the reasoning-loop tool invoker returns an
    ERROR observation for the same condition. -/
theorem C10_empty_recipients (env : Env) (db : List TaskLogRec)
    (config : PyVal) (data : PyVal) (v : PyVal)
    (hget : pyDictGet config "to" .none = .ok v)
    (hfalsy : pyTruthy v = false) :
    _execute_node env db "tool" "email_sender" config data =
      (.ok (.dict [("status", .str "sent"), ("to", .list [])]), [], db) ∧
    (∀ (caps : Caps) (s m : String) (args : PyVal),
      s ≠ "" → parseJson s = some args →
      pyDictGet args "to" .none = .ok v →
      _execute_tool caps "send_email" s m =
        (("ERROR: 'to' (recipient list) is required.", Option.none), [])) := by
  cases config with
  | dict kvs =>
    constructor
    · rw [_execute_node.eq_def]
      rw [if_neg (by decide), if_neg (by decide), if_neg (by decide), if_pos (by decide)]
      rw [hget]
      have hsub : pyDictGet (.dict kvs) "subject" .none =
          .ok (((((kvs.reverse).find? (fun kv => kv.1 = "subject")).map (fun kv => kv.2)).getD .none)) := rfl
      rw [hsub]
      dsimp only
      have h1 : pyOr v (.list []) = .list [] := by
        simp [pyOr, hfalsy]
      simp only [h1]
      rfl
    · intro caps s m args hs hparse hget2
      cases args with
      | dict akvs =>
        rw [_execute_tool.eq_def, if_neg hs, hparse]
        have hra : resolveAlias "send_email" = "send_email" := rfl
        simp only [hra]
        rw [if_neg (by decide), if_neg (by decide), if_neg (by decide), if_pos trivial]
        rw [mailBranch.eq_def]
        simp only [bind, Except.bind, pure, Except.pure]
        rw [hget2]
        have hsub : pyDictGet (.dict akvs) "subject" .none =
            .ok (((((akvs.reverse).find? (fun kv => kv.1 = "subject")).map (fun kv => kv.2)).getD .none)) := rfl
        have hbody : pyDictGet (.dict akvs) "body" .none =
            .ok (((((akvs.reverse).find? (fun kv => kv.1 = "body")).map (fun kv => kv.2)).getD .none)) := rfl
        rw [hsub, hbody]
        dsimp only
        have h1 : pyOr v (.list []) = .list [] := by
          simp [pyOr, hfalsy]
        simp only [h1]
        rfl
      | none => simp [pyDictGet] at hget2
      | bool b => simp [pyDictGet] at hget2
      | int n => simp [pyDictGet] at hget2
      | str s2 => simp [pyDictGet] at hget2
      | list xs => simp [pyDictGet] at hget2
  | none => simp [pyDictGet] at hget
  | bool b => simp [pyDictGet] at hget
  | int n => simp [pyDictGet] at hget
  | str s => simp [pyDictGet] at hget
  | list xs => simp [pyDictGet] at hget

/-- C2: the tool invoker converts every failure into an ERROR-prefixed
    observation with a null artifact path: malformed JSON arguments, an
    unknown (alias-resolved) tool name, a missing required field for each
    tool that has one, and an exception thrown inside any capability branch.
    (Totality of `_execute_tool` models "never raises".) -/
theorem C2_invoker_never_raises :
    (∀ (caps : Caps) (t s m : String), s ≠ "" → parseJson s = Option.none →
      _execute_tool caps t s m =
        (("ERROR: tool arguments could not be parsed as JSON.", Option.none), [])) ∧
    (∀ (caps : Caps) (t s m : String),
      resolveAlias t ≠ "generate_pdf_report" → resolveAlias t ≠ "analyze_image" →
      resolveAlias t ≠ "web_scraper_tool" → resolveAlias t ≠ "send_email" →
      s = "" ∨ (parseJson s).isSome = true →
      _execute_tool caps t s m = (("ERROR: unknown tool '" ++ t ++ "'.", Option.none), [])) ∧
    (∀ (caps : Caps) (t s m : String) (args v : PyVal),
      s ≠ "" → parseJson s = some args → resolveAlias t = "analyze_image" →
      pyDictGet args "image_path" .none = .ok v → pyTruthy v = false →
      _execute_tool caps t s m = (("ERROR: image_path is required.", Option.none), [])) ∧
    (∀ (caps : Caps) (t s m : String) (kvs : List (String × PyVal)),
      s ≠ "" → parseJson s = some (.dict kvs) → resolveAlias t = "web_scraper_tool" →
      pyTruthy (pyOr (dictGetD kvs "url" .none)
        (pyOr (dictGetD kvs "target_url" .none) (dictGetD kvs "source" .none))) = false →
      _execute_tool caps t s m =
        (("ERROR: 'url' is required for web scraping.", Option.none), [])) ∧
    (∀ (caps : Caps) (t s m : String) (kvs : List (String × PyVal)),
      s ≠ "" → parseJson s = some (.dict kvs) → resolveAlias t = "send_email" →
      pyTruthy (dictGetD kvs "to" .none) = false →
      _execute_tool caps t s m =
        (("ERROR: 'to' (recipient list) is required.", Option.none), [])) ∧
    (∀ (caps : Caps) (t s m : String) (args : PyVal) (e : String) (tr : List Eff),
      s ≠ "" → parseJson s = some args →
      ((resolveAlias t = "generate_pdf_report" ∧ pdfBranch caps args = (.error e, tr)) ∨
       (resolveAlias t = "analyze_image" ∧ visionBranch caps args m = (.error e, tr)) ∨
       (resolveAlias t = "web_scraper_tool" ∧ scrapeBranch caps args = (.error e, tr)) ∨
       (resolveAlias t = "send_email" ∧ mailBranch caps args = (.error e, tr))) →
      _execute_tool caps t s m =
        (("ERROR while executing '" ++ resolveAlias t ++ "': " ++ e, Option.none), tr)) := by
  refine ⟨?_, ?_, ?_, ?_, ?_, ?_⟩
  · intro caps t s m hs hparse
    rw [_execute_tool.eq_def, if_neg hs, hparse]
  · intro caps t s m h1 h2 h3 h4 hargs
    rcases hargs with rfl | hsome
    · rw [_execute_tool.eq_def, if_pos rfl]
      dsimp only
      rw [if_neg h1, if_neg h2, if_neg h3, if_neg h4]
    · match hp : parseJson s with
      | Option.none => rw [hp] at hsome; simp at hsome
      | some args =>
        by_cases hs : s = ""
        · rw [_execute_tool.eq_def, if_pos hs]
          dsimp only
          rw [if_neg h1, if_neg h2, if_neg h3, if_neg h4]
        · rw [_execute_tool.eq_def, if_neg hs, hp]
          dsimp only
          rw [if_neg h1, if_neg h2, if_neg h3, if_neg h4]
  · intro caps t s m args v hs hparse hres hget hfalsy
    rw [_execute_tool.eq_def, if_neg hs, hparse]
    dsimp only
    rw [hres]
    rw [if_neg (by decide), if_pos rfl]
    rw [visionBranch.eq_def, hget]
    dsimp only
    rw [if_pos (by rw [hfalsy])]
  · intro caps t s m kvs hs hparse hres hfalsy
    rw [_execute_tool.eq_def, if_neg hs, hparse]
    dsimp only
    rw [hres]
    rw [if_neg (by decide), if_neg (by decide), if_pos rfl]
    rw [scrapeBranch.eq_def]
    simp only [bind, Except.bind, pure, Except.pure, pyDictGet]
    rw [if_pos (by rw [hfalsy])]
  · intro caps t s m kvs hs hparse hres hfalsy
    rw [_execute_tool.eq_def, if_neg hs, hparse]
    dsimp only
    rw [hres]
    rw [if_neg (by decide), if_neg (by decide), if_neg (by decide), if_pos rfl]
    rw [mailBranch.eq_def]
    simp only [bind, Except.bind, pure, Except.pure, pyDictGet]
    have h1 : pyOr (dictGetD kvs "to" PyVal.none) (.list []) = .list [] := by
      simp [pyOr, hfalsy]
    simp only [h1]
    rfl
  · intro caps t s m args e tr hs hparse hbr
    rw [_execute_tool.eq_def, if_neg hs, hparse]
    dsimp only
    rcases hbr with ⟨hres, hbr⟩ | ⟨hres, hbr⟩ | ⟨hres, hbr⟩ | ⟨hres, hbr⟩ <;> rw [hres]
    · rw [if_pos rfl, hbr]
    · rw [if_neg (by decide), if_pos rfl, hbr]
    · rw [if_neg (by decide), if_neg (by decide), if_pos rfl, hbr]
    · rw [if_neg (by decide), if_neg (by decide), if_neg (by decide), if_pos rfl, hbr]

/-- C3 counterexample: the claim that both pdf call sites confine the
    generated path to the reports directory is false — the reasoning-loop
    invoker leaves relative filenames untouched, so "../evil.pdf" resolves
    outside reports (to /app/evil.pdf when the working directory is /app). -/
theorem C3_counterexample :
    ¬ ((∀ cwd f : String, withinDir (resolveParts cwd "reports")
          (resolveParts cwd (orchReportPath f)) = true) ∧
       (∀ cwd f : String, withinDir (resolveParts cwd "reports")
          (normAux [] (wfReportParts cwd f)) = true)) := by
  intro h
  have h2 := h.1 "/app" "../evil.pdf"
  exact absurd h2 (by decide)

/-- C3 amended: the workflow pdf_report node reduces the filename to its
    final path component, which confines the output to the reports directory
    whenever that component is a real name (not empty, not ".."); the
    reasoning-loop invoker reduces only absolute filenames to their base
    name, so only slash-free relative filenames are guaranteed to stay
    inside the reports directory. -/
theorem C3_sanitization_amended :
    (∀ cwd f : String, (∀ c ∈ splitParts cwd, c ≠ "." ∧ c ≠ "..") →
      pathlibName f ≠ "" → pathlibName f ≠ ".." →
      withinDir (resolveParts cwd "reports") (normAux [] (wfReportParts cwd f)) = true) ∧
    (∀ cwd f : String, (∀ c ∈ splitParts cwd, c ≠ "." ∧ c ≠ "..") →
      '/' ∉ f.toList → f ≠ "" → f ≠ "." → f ≠ ".." → isAbsPath f = false →
      withinDir (resolveParts cwd "reports") (resolveParts cwd (orchReportPath f)) = true) := by
  have hreports : ∀ cwd : String, (∀ c ∈ splitParts cwd, c ≠ "." ∧ c ≠ "..") →
      resolveParts cwd "reports" = splitParts cwd ++ ["reports"] := by
    intro cwd hclean
    show normAux [] (if isAbsPath "reports" then splitParts "reports"
      else splitParts cwd ++ splitParts "reports") = splitParts cwd ++ ["reports"]
    rw [if_neg (by decide), show splitParts "reports" = ["reports"] from rfl]
    rw [normAux_clean]
    · simp
    · intro c hc
      rcases List.mem_append.1 hc with h1 | h1
      · exact hclean c h1
      · rcases List.mem_singleton.1 h1 with rfl
        exact ⟨by decide, by decide⟩
  constructor
  · intro cwd f hclean hne hnd
    unfold wfReportParts
    rw [hreports cwd hclean]
    dsimp only
    rw [if_neg hne]
    rw [normAux_clean]
    · rw [withinDir]
      refine List.isPrefixOf_iff_prefix.2 ⟨[pathlibName f], ?_⟩
      simp
    · intro c hc
      rcases List.mem_append.1 hc with h1 | h1
      · rcases List.mem_append.1 h1 with h2 | h2
        · exact hclean c h2
        · rcases List.mem_singleton.1 h2 with rfl
          exact ⟨by decide, by decide⟩
      · rcases List.mem_singleton.1 h1 with rfl
        exact ⟨pathlibName_ne_dot f, hnd⟩
  · intro cwd f hclean hslash hne hnd hndd habs
    have hor : orchReportPath f = "reports" ++ "/" ++ f := by
      unfold orchReportPath
      rw [habs]
      show joinRel "reports" f = "reports" ++ "/" ++ f
      unfold joinRel
      rw [if_neg hne]
    rw [hor]
    have habs2 : isAbsPath ("reports" ++ "/" ++ f) = false := by
      show (match ("reports" ++ "/" ++ f).toList with
        | '/' :: _ => true
        | _ => false) = false
      have : ("reports" ++ "/" ++ f).toList = 'r' :: ("eports/".toList ++ f.toList) := by
        show ("reports" ++ "/" ++ f).data = 'r' :: ("eports/".data ++ f.data)
        rw [String.data_append, String.data_append]
        rfl
      rw [this]
      rfl
    have hsplit : splitParts ("reports" ++ "/" ++ f) = ["reports", f] := by
      rw [splitParts_concat "reports" f (by decide) hslash]
      rw [List.filter_cons, List.filter_cons]
      simp [hne]
    have hres2 : resolveParts cwd ("reports" ++ "/" ++ f) =
        normAux [] (splitParts cwd ++ ["reports", f]) := by
      unfold resolveParts
      rw [habs2, hsplit]
      simp only [Bool.false_eq_true, if_false]
    rw [hres2, hreports cwd hclean]
    rw [normAux_clean]
    · rw [withinDir]
      refine List.isPrefixOf_iff_prefix.2 ⟨[f], ?_⟩
      simp
    · intro c hc
      rcases List.mem_append.1 hc with h1 | h1
      · exact hclean c h1
      · rcases List.mem_cons.1 h1 with rfl | h2
        · exact ⟨by decide, by decide⟩
        · rcases List.mem_singleton.1 h2 with rfl
          exact ⟨hnd, hndd⟩

/-- C4 counterexample: the vision tool's guard is a string-prefix test on the
    resolved path, so a sibling directory whose name extends "uploads"
    (e.g. /app/uploadsx) passes the guard although it is not inside the
    uploads directory. -/
theorem C4_counterexample :
    ¬ (∀ cwd p : String, visionGuard cwd p = true →
        withinDir (resolveParts cwd "uploads") (resolveParts cwd p) = true) := by
  intro h
  have h2 := h "/app" "/app/uploadsx/a.png"
  have h3 : visionGuard "/app" "/app/uploadsx/a.png" = true := by decide
  exact absurd (h2 h3) (by decide)

/-- C4 amended: analyze_image rejects every path whose resolved string form
    does not start with the uploads-directory string, reading no file in
    that case; and any file it ever reads is exactly the resolved input
    path. (A resolved path outside uploads whose string extends the uploads
    prefix can still be accepted — see the counterexample.) -/
theorem C4_vision_guard_amended :
    (∀ (caps : Caps) (p : String) (prompt : PyVal) (mn : String),
      visionGuard caps.cwd p = false →
      analyze_image caps (.str p) prompt mn =
        (.error "Image path is not within the allowed uploads directory.", [])) ∧
    (∀ (caps : Caps) (p : String) (prompt : PyVal) (mn : String),
      ∀ eff ∈ (analyze_image caps (.str p) prompt mn).2,
        eff = .fileRead (resolveStr caps.cwd p)) := by
  constructor
  · intro caps p prompt mn hguard
    rw [analyze_image.eq_def]
    dsimp only
    rw [if_pos hguard]
  · intro caps p prompt mn eff heff
    rw [analyze_image.eq_def] at heff
    dsimp only at heff
    by_cases hg : visionGuard caps.cwd p = false
    · rw [if_pos hg] at heff
      simp at heff
    · rw [if_neg hg] at heff
      by_cases hf : caps.isFile (resolveStr caps.cwd p) = false
      · rw [if_pos hf] at heff
        simp at heff
      · rw [if_neg hf] at heff
        simpa using heff

/-- C6: for every finite workflow graph the executor reaches a settled
    outcome (it does not hang), and in any graph containing a two-node cycle
    in which each node is the other's only parent, neither cycle node is
    ever completed or given a key in the result mapping. -/
theorem C6_graph_executor :
    (∀ (env : Env) (g : WGraph) (db : List TaskLogRec),
      ∃ fuel, (execute_graph env g db fuel).isSettled = true) ∧
    (∀ (env : Env) (g : WGraph) (db : List TaskLogRec) (fuel : Nat) (a b : String),
      parentsOf g a ≠ [] → (∀ p ∈ parentsOf g a, p = b) →
      parentsOf g b ≠ [] → (∀ p ∈ parentsOf g b, p = a) →
      a ∉ ((execute_graph env g db fuel).state).completed ∧
      b ∉ ((execute_graph env g db fuel).state).completed ∧
      a ∉ resultKeys ((execute_graph env g db fuel).state) ∧
      b ∉ resultKeys ((execute_graph env g db fuel).state)) := by
  constructor
  · intro env g db
    exact ⟨wMeasure g (initWf g db).ready + 1,
      wfRun_settles env g (wMeasure g (initWf g db).ready) (initWf g db)
        (initWf_inv g db) (le_refl _)⟩
  · intro env g db fuel a b ha1 ha2 hb1 hb2
    have hcf := wfRun_cycfree env g a b ha1 ha2 hb1 hb2 fuel (initWf g db)
      (initWf_cycfree g db a b ha1 hb1)
    obtain ⟨_, _, hca, hcb, hkeys⟩ := hcf
    refine ⟨hca, hcb, ?_, ?_⟩
    · intro hma
      rcases List.mem_map.1 hma with ⟨kv, hkv, heq⟩
      exact (hkeys kv hkv).1 heq
    · intro hmb
      rcases List.mem_map.1 hmb with ⟨kv, hkv, heq⟩
      exact (hkeys kv hkv).2 heq

theorem countKind_thought_zero (es : List Event) (k : EventKind)
    (hk : k ≠ .thought) (h : ∀ e ∈ es, e.kind = .thought) :
    countKind k es = 0 := by
  unfold countKind
  rw [List.filter_eq_nil_iff.2]
  · rfl
  · intro e he
    simp only [decide_eq_true_eq]
    intro hke
    exact hk ((h e he) ▸ hke ▸ rfl)

/-- C7: a model turn carrying N structured tool calls drains them before the
    next query: one action event then one observation event per call, in
    call order, and exactly 2N new context entries (the assistant tool-call
    message and its tool-result message per call); across a whole run the
    message list is append-only. -/
theorem C7_tool_call_turn :
    (∀ (env : Env) (mn : String) (step : Nat) (s : LoopState) (resp : ModelResponse),
      env.respond s.queries = .ok resp → resp.tool_calls ≠ [] →
      ∃ s2, reactStep env mn step s = .next s2 ∧
        s2.messages = s.messages ++ resp.tool_calls.flatMap (toolCallMsgs env.caps mn) ∧
        s2.messages.length = s.messages.length + 2 * resp.tool_calls.length ∧
        (∃ pre, s2.events = s.events ++ pre ++
            resp.tool_calls.flatMap (toolCallEvents env.caps mn) ∧
          (∀ e ∈ pre, e.kind = .thought) ∧
          countKind .action (pre ++ resp.tool_calls.flatMap (toolCallEvents env.caps mn)) =
            resp.tool_calls.length ∧
          countKind .observation (pre ++ resp.tool_calls.flatMap (toolCallEvents env.caps mn)) =
            resp.tool_calls.length)) ∧
    (∀ (env : Env) (mn : String) (fuel step : Nat) (s : LoopState),
      s.messages <+: (runSteps env mn fuel step s).1.messages) := by
  constructor
  · intro env mn step s resp hre hne
    have hcount := fun tcs => flatMap_events_len env.caps mn tcs
    have hmsgs := fun tcs => flatMap_msgs_len env.caps mn tcs
    simp only [reactStep, hre]
    cases htc : resp.tool_calls with
    | nil => exact absurd htc hne
    | cons tc tcs =>
      by_cases hc : resp.content = ""
      · have hd := drainCalls_spec env.caps mn step (tc :: tcs)
          { s with
            events := s.events ++
              [⟨EventKind.thought, "[Step " ++ toString (step + 1) ++ "] Querying model " ++ mn ++ "…"⟩],
            queries := s.queries + 1 }
        simp only [hc, ne_eq, not_true_eq_false, List.isEmpty_cons, Bool.true_eq_false,
          Bool.false_eq_true, ite_false, ite_true]
        refine ⟨_, rfl, ?_, ?_, ?_⟩
        · rw [hd.1]
        · rw [hd.1, List.length_append, hmsgs (tc :: tcs)]
        · refine ⟨[⟨EventKind.thought,
            "[Step " ++ toString (step + 1) ++ "] Querying model " ++ mn ++ "…"⟩], ?_, ?_, ?_, ?_⟩
          · rw [hd.2.1]
          · intro e he
            rcases List.mem_singleton.1 he with rfl
            rfl
          · unfold countKind
            rw [List.filter_append, List.length_append]
            have hz := countKind_thought_zero
              [⟨EventKind.thought, "[Step " ++ toString (step + 1) ++ "] Querying model " ++ mn ++ "…"⟩]
              .action (by simp) (by intro e he; rcases List.mem_singleton.1 he with rfl; rfl)
            have h1 := (hcount (tc :: tcs)).1
            unfold countKind at hz h1
            rw [hz, h1]
            simp
          · unfold countKind
            rw [List.filter_append, List.length_append]
            have hz := countKind_thought_zero
              [⟨EventKind.thought, "[Step " ++ toString (step + 1) ++ "] Querying model " ++ mn ++ "…"⟩]
              .observation (by simp) (by intro e he; rcases List.mem_singleton.1 he with rfl; rfl)
            have h1 := (hcount (tc :: tcs)).2.1
            unfold countKind at hz h1
            rw [hz, h1]
            simp
      · have hd := drainCalls_spec env.caps mn step (tc :: tcs)
          { s with
            thought_log := s.thought_log ++
              ["THOUGHT (step " ++ toString step ++ "): " ++ resp.content],
            events := (s.events ++
              [⟨EventKind.thought, "[Step " ++ toString (step + 1) ++ "] Querying model " ++ mn ++ "…"⟩]) ++
              [⟨EventKind.thought, resp.content⟩],
            queries := s.queries + 1 }
        simp only [hc, ne_eq, not_false_eq_true, List.isEmpty_cons, Bool.true_eq_false,
          Bool.false_eq_true, ite_false, ite_true]
        refine ⟨_, rfl, ?_, ?_, ?_⟩
        · rw [hd.1]
        · rw [hd.1, List.length_append, hmsgs (tc :: tcs)]
        · refine ⟨[⟨EventKind.thought,
              "[Step " ++ toString (step + 1) ++ "] Querying model " ++ mn ++ "…"⟩,
              ⟨EventKind.thought, resp.content⟩], ?_, ?_, ?_, ?_⟩
          · rw [hd.2.1]
            simp [List.append_assoc]
          · intro e he
            rcases List.mem_cons.1 he with rfl | h1
            · rfl
            · rcases List.mem_singleton.1 h1 with rfl
              rfl
          · unfold countKind
            rw [List.filter_append, List.length_append]
            have hz := countKind_thought_zero
              [⟨EventKind.thought, "[Step " ++ toString (step + 1) ++ "] Querying model " ++ mn ++ "…"⟩,
               ⟨EventKind.thought, resp.content⟩]
              .action (by simp)
              (by intro e he
                  rcases List.mem_cons.1 he with rfl | h1
                  · rfl
                  · rcases List.mem_singleton.1 h1 with rfl
                    rfl)
            have h1 := (hcount (tc :: tcs)).1
            unfold countKind at hz h1
            rw [hz, h1]
            simp
          · unfold countKind
            rw [List.filter_append, List.length_append]
            have hz := countKind_thought_zero
              [⟨EventKind.thought, "[Step " ++ toString (step + 1) ++ "] Querying model " ++ mn ++ "…"⟩,
               ⟨EventKind.thought, resp.content⟩]
              .observation (by simp)
              (by intro e he
                  rcases List.mem_cons.1 he with rfl | h1
                  · rfl
                  · rcases List.mem_singleton.1 h1 with rfl
                    rfl)
            have h1 := (hcount (tc :: tcs)).2.1
            unfold countKind at hz h1
            rw [hz, h1]
            simp
  · intro env mn fuel step s
    exact (runSteps_spec env mn fuel step s).2.1

/-- C1 counterexample: the claim that every run's event stream ends with
    exactly one final event followed by one done event fails on the
    agent-not-found path, which emits an error event and then two done
    sentinels (the explicit one plus the one from the finally block). -/
theorem C1_counterexample :
    ¬ (∀ (env : Env) (db : List TaskLogRec) (aid : Int) (prompt : String)
        (img : Option String), ∃ es payload,
        (stream_agent_task env db aid prompt img).events =
          es ++ [⟨EventKind.final, payload⟩, ⟨EventKind.done, "[DONE]"⟩]) := by
  intro h
  obtain ⟨es, payload, heq⟩ := h envNoAgent [] 7 "hi" Option.none
  have h2 : (stream_agent_task envNoAgent [] 7 "hi" Option.none).events =
      [⟨EventKind.error, "Agent #7 not found."⟩, ⟨EventKind.done, "[DONE]"⟩,
       ⟨EventKind.done, "[DONE]"⟩] := rfl
  rw [h2] at heq
  rcases es with _ | ⟨e1, _ | ⟨e2, _ | ⟨e3, tl⟩⟩⟩ <;> simp_all

/-- C1 amended: every exit path ends with a trailing done sentinel; when the
    agent is found and no model call raises, the loop makes at most
    MAX_REACT_STEPS model calls and the stream ends with exactly one final
    event followed by exactly one done event as the last two events (the
    earlier events are all thought/action/observation). -/
theorem C1_stream_shape_amended :
    (∀ (env : Env) (db : List TaskLogRec) (aid : Int) (prompt : String)
      (img : Option String), ∃ es,
      (stream_agent_task env db aid prompt img).events =
        es ++ [⟨EventKind.done, "[DONE]"⟩]) ∧
    (∀ (env : Env) (db : List TaskLogRec) (aid : Int) (prompt : String)
      (img : Option String) (a : AgentRec),
      sessionGetAgent env.agents aid = some a →
      (∀ i, (env.respond i).isOk = true) →
      ∃ es payload,
        (stream_agent_task env db aid prompt img).events =
          es ++ [⟨EventKind.final, payload⟩, ⟨EventKind.done, "[DONE]"⟩] ∧
        (∀ e ∈ es, e.kind = .thought ∨ e.kind = .action ∨ e.kind = .observation) ∧
        (stream_agent_task env db aid prompt img).model_calls ≤ MAX_REACT_STEPS) := by
  constructor
  · intro env db aid prompt img
    exact ⟨(stream_core env db aid prompt img).events, rfl⟩
  · intro env db aid prompt img a hagent hok
    obtain ⟨s1, fa, hcore, hkinds, hq⟩ := stream_core_good env db aid prompt img a hagent hok
    refine ⟨s1.events, dumpPayload ((db.length : Int) + 1) a.id fa s1.last_artifact, ?_, hkinds, ?_⟩
    · have h1 : (stream_agent_task env db aid prompt img).events =
          (stream_core env db aid prompt img).events ++ [⟨EventKind.done, "[DONE]"⟩] := rfl
      rw [h1, hcore]
      simp [List.append_assoc]
    · have h2 : (stream_agent_task env db aid prompt img).model_calls =
          (stream_core env db aid prompt img).model_calls := rfl
      rw [h2, hcore]
      exact hq

/-- C8 counterexample: a run whose first model call raises reaches its end
    through the error path and persists no TaskRecord at all, refuting the
    claim that every completed-or-failed run creates exactly one. -/
theorem C8_counterexample :
    ¬ (∀ (env : Env) (db : List TaskLogRec) (aid : Int) (prompt : String)
        (img : Option String) (a : AgentRec),
        sessionGetAgent env.agents aid = some a →
        ((stream_agent_task env db aid prompt img).db).length = db.length + 1) := by
  intro h
  have h2 := h envFatal [] 1 "hi" Option.none agent1 rfl
  have h3 : (stream_agent_task envFatal [] 1 "hi" Option.none).db = [] := rfl
  rw [h3] at h2
  simp at h2

/-- C8 amended: a run in which the agent is found and no model call raises
    persists exactly one TaskRecord, carrying the agent id, the input
    prompt, the joined transcript and the final answer, with the fresh
    autoincrement id; the store is append-only on every path (records are
    never mutated or removed), while a run that fails with an exception
    persists nothing. -/
theorem C8_task_record_amended :
    (∀ (env : Env) (db : List TaskLogRec) (aid : Int) (prompt : String)
      (img : Option String) (a : AgentRec),
      sessionGetAgent env.agents aid = some a →
      (∀ i, (env.respond i).isOk = true) →
      ∃ rec1, (stream_agent_task env db aid prompt img).db = db ++ [rec1] ∧
        rec1.agent_id = a.id ∧ rec1.input_query = prompt ∧
        rec1.id = (db.length : Int) + 1) ∧
    (∀ (env : Env) (db : List TaskLogRec) (aid : Int) (prompt : String)
      (img : Option String), db <+: (stream_agent_task env db aid prompt img).db) := by
  constructor
  · intro env db aid prompt img a hagent hok
    obtain ⟨s1, fa, hcore, _, _⟩ := stream_core_good env db aid prompt img a hagent hok
    refine ⟨mkTaskLog db a prompt s1 fa, ?_, rfl, rfl, rfl⟩
    have h1 : (stream_agent_task env db aid prompt img).db =
        (stream_core env db aid prompt img).db := rfl
    rw [h1, hcore]
  · exact stream_db_prefix

/-- C9 (code bug): the synchronous wrapper corrupts the final payload when
    the final answer contains a newline: the frame-level newline unescaping
    reintroduces a control character into the JSON text, json.loads fails,
    and the wrapper returns the raw payload text instead of the decoded
    final_output field. -/
theorem C9_sync_wrapper_newline_bug :
    (stream_agent_task envC9 [] 1 "hi" Option.none).events.filter
        (fun e => e.kind = EventKind.final) =
      [⟨EventKind.final,
        "\x7b\"task_log_id\": 1, \"agent_id\": 1, \"final_output\": \"line1\\nline2\", \"artifact_path\": null\x7d"⟩] ∧
    parseJson "\x7b\"task_log_id\": 1, \"agent_id\": 1, \"final_output\": \"line1\\nline2\", \"artifact_path\": null\x7d" =
      some (.dict [("task_log_id", .int 1), ("agent_id", .int 1),
        ("final_output", .str "line1\nline2"), ("artifact_path", .none)]) ∧
    (run_agent_task envC9 [] 1 "hi" Option.none).final_output =
      .str "\x7b\"task_log_id\": 1, \"agent_id\": 1, \"final_output\": \"line1\nline2\", \"artifact_path\": null\x7d" ∧
    (run_agent_task envC9 [] 1 "hi" Option.none).final_output ≠ .str "line1\nline2" := by
  refine ⟨rfl, rfl, rfl, ?_⟩
  intro h
  have hval : (run_agent_task envC9 [] 1 "hi" Option.none).final_output =
      .str "\x7b\"task_log_id\": 1, \"agent_id\": 1, \"final_output\": \"line1\nline2\", \"artifact_path\": null\x7d" := rfl
  rw [hval] at h
  exact absurd (PyVal.str.inj h) (by decide)

/-- Witness for C10 at a concrete input: an empty config dict yields a falsy
    recipient value, so the workflow node reports an empty send and the
    invoker answers with the required-recipients error. -/
theorem C10_empty_recipients_witness :
    _execute_node envGood [] "tool" "email_sender" (.dict []) (.str "x") =
      (.ok (.dict [("status", .str "sent"), ("to", .list [])]), [], []) ∧
    (∀ (caps : Caps) (s m : String) (args : PyVal),
      s ≠ "" → parseJson s = some args →
      pyDictGet args "to" .none = .ok .none →
      _execute_tool caps "send_email" s m =
        (("ERROR: 'to' (recipient list) is required.", Option.none), [])) :=
  C10_empty_recipients envGood [] (.dict []) (.str "x") .none rfl rfl
